import Mathlib

/-!
Verification development for the Optima-SEO content-analysis core.

JavaScript strings are modelled as lists of characters (`Str`), JavaScript
numbers as `Nat`/`Int`/`Rat` as appropriate, and the regular-expression
operations used by the source are embedded as executable character-list
scanners.  Skip-ahead scanners carry an explicit fuel argument that is
instantiated with the length of the scanned string; every step consumes at
least one character, so the fuel is always sufficient and never alters the
result.
-/

namespace Optima

/-- JavaScript strings, modelled as lists of characters. -/
abbrev Str := List Char

/-- Turn a Lean string literal into the character-list model. -/
def sl (s : String) : Str := s.data

/-- The whitespace characters recognised by the JavaScript regex class
whitespace, restricted to the characters that can occur in the modelled
content (ASCII whitespace and NBSP). -/
def jsWS (c : Char) : Bool :=
  c == ' ' || c == '\t' || c == '\n' || c == '\r' ||
    c == Char.ofNat 11 || c == Char.ofNat 12 || c == Char.ofNat 160

/-- ASCII lower-casing of one character, the effect of `toLowerCase` on the
modelled content. -/
def lowerChar (c : Char) : Char :=
  if 'A' ≤ c ∧ c ≤ 'Z' then Char.ofNat (c.toNat + 32) else c

/-- `String.prototype.toLowerCase`. -/
def strToLower (s : Str) : Str := s.map lowerChar

/-- Does `s` start with `p`?  (`String.prototype.startsWith`.) -/
def strStartsWith : Str → Str → Bool
  | _, [] => true
  | [], _ :: _ => false
  | c :: cs, d :: ds => c == d && strStartsWith cs ds

/-- Does `s` contain `sub` as a contiguous substring?
(`String.prototype.includes`.) -/
def strContains : Str → Str → Bool
  | s, sub =>
    strStartsWith s sub ||
      match s with
      | [] => false
      | _ :: t => strContains t sub

/-- Does `s` end with `p`?  (`String.prototype.endsWith`.) -/
def strEndsWith (s p : Str) : Bool := strStartsWith s.reverse p.reverse

/-- `String.prototype.trim`. -/
def strTrim (s : Str) : Str :=
  ((s.dropWhile jsWS).reverse.dropWhile jsWS).reverse

/-! ## Regex scanners

Each JavaScript regex operation used by the source is embedded as an
executable scanner.  Scanners that skip ahead after a match take a fuel
argument instantiated with the length of the scanned string; every step
consumes at least one character, so the fuel never runs out. -/

/-- Split `s` at the first occurrence of `sub` (`sub` given lower-case, the
scan is case-insensitive): the part before the occurrence and the part after
it. -/
def splitAtSubCI (sub : Str) : Str → Option (Str × Str)
  | [] => if strStartsWith [] sub then some ([], []) else none
  | c :: t =>
    if strStartsWith (strToLower (c :: t)) sub then some ([], (c :: t).drop sub.length)
    else (splitAtSubCI sub t).map fun pr => (c :: pr.1, pr.2)

/-- Global removal of `<tag[^>]*>...</tag>` blocks (non-greedy body, the
`gi` regexes deleting script and style blocks in `extractPlainText`). -/
def stripBlocksF (tag : Str) : Nat → Str → Str
  | _, [] => []
  | 0, s => s
  | fuel + 1, c :: t =>
    if c == '<' && strStartsWith (strToLower t) tag then
      let afterName := t.drop tag.length
      match afterName.dropWhile (fun d => !(d == '>')) with
      | [] => c :: t
      | _ :: body =>
        match splitAtSubCI (('<' :: '/' :: tag) ++ ['>']) body with
        | some pr => stripBlocksF tag fuel pr.2
        | none => c :: stripBlocksF tag fuel t
    else c :: stripBlocksF tag fuel t

def stripBlocks (tag : Str) (s : Str) : Str := stripBlocksF tag s.length s

/-- Global replacement of `<br\s*\/?>` (case-insensitive) by a newline. -/
def replaceBrF : Nat → Str → Str
  | _, [] => []
  | 0, s => s
  | fuel + 1, c :: t =>
    if c == '<' && strStartsWith (strToLower t) (sl "br") then
      match (t.drop 2).dropWhile jsWS with
      | '/' :: '>' :: r2 => '\n' :: replaceBrF fuel r2
      | '>' :: r2 => '\n' :: replaceBrF fuel r2
      | _ => c :: replaceBrF fuel t
    else c :: replaceBrF fuel t

def replaceBr (s : Str) : Str := replaceBrF s.length s

/-- Global case-insensitive replacement of the fixed pattern `pat`
(given lower-case) by `rep`. -/
def replaceSubCIF (pat rep : Str) : Nat → Str → Str
  | _, [] => []
  | 0, s => s
  | fuel + 1, c :: t =>
    if !pat.isEmpty && strStartsWith (strToLower (c :: t)) pat then
      rep ++ replaceSubCIF pat rep fuel ((c :: t).drop pat.length)
    else c :: replaceSubCIF pat rep fuel t

def replaceSubCI (pat rep s : Str) : Str := replaceSubCIF pat rep s.length s

/-- Global case-sensitive replacement of the fixed pattern `pat` by `rep`
(the HTML-entity replacements). -/
def replaceSubF (pat rep : Str) : Nat → Str → Str
  | _, [] => []
  | 0, s => s
  | fuel + 1, c :: t =>
    if !pat.isEmpty && strStartsWith (c :: t) pat then
      rep ++ replaceSubF pat rep fuel ((c :: t).drop pat.length)
    else c :: replaceSubF pat rep fuel t

def replaceSub (pat rep s : Str) : Str := replaceSubF pat rep s.length s

/-- Global replacement of HTML tags, the regex `<[^>]+>`, by `rep`. -/
def removeTagsF (rep : Str) : Nat → Str → Str
  | _, [] => []
  | 0, s => s
  | fuel + 1, c :: t =>
    if c == '<' then
      let mid := t.takeWhile (fun d => !(d == '>'))
      match t.dropWhile (fun d => !(d == '>')) with
      | [] => c :: t
      | _ :: rest2 =>
        if mid.isEmpty then c :: removeTagsF rep fuel t
        else rep ++ removeTagsF rep fuel rest2
    else c :: removeTagsF rep fuel t

def removeTags (rep s : Str) : Str := removeTagsF rep s.length s

/-- Global replacement of whitespace runs by a single space, the regex
replacement of whitespace-plus by a space. -/
def collapseWSF : Nat → Str → Str
  | _, [] => []
  | 0, s => s
  | fuel + 1, c :: t =>
    if jsWS c then ' ' :: collapseWSF fuel (t.dropWhile jsWS)
    else c :: collapseWSF fuel t

def collapseWS (s : Str) : Str := collapseWSF s.length s

/-- JavaScript `String.prototype.split` on a character-class-plus regex:
fragments between maximal runs of characters satisfying `p`, keeping empty
leading/trailing fragments as JavaScript does. -/
def splitRunsF (p : Char → Bool) : Nat → Str → Str → List Str
  | _, cur, [] => [cur.reverse]
  | 0, cur, s => [cur.reverse ++ s]
  | fuel + 1, cur, c :: t =>
    if p c then cur.reverse :: splitRunsF p fuel [] (t.dropWhile p)
    else splitRunsF p fuel (c :: cur) t

def splitRuns (p : Char → Bool) (s : Str) : List Str := splitRunsF p s.length [] s

/-! ## semanticClassifier.ts: extractPlainText and isSubstantialContent -/

/-- `extractPlainText` of semanticClassifier.ts: strip script/style blocks,
turn br and closing-p tags into newlines, remove remaining tags, decode the
fixed entity set, collapse whitespace, trim. -/
def extractPlainText (html : Str) : Str :=
  if html.isEmpty then []
  else
    let t1 := stripBlocks (sl "script") html
    let t2 := stripBlocks (sl "style") t1
    let t3 := replaceBr t2
    let t4 := replaceSubCI (sl "</p>") (sl "\n") t3
    let t5 := removeTags [] t4
    let t6 := replaceSub (sl "&nbsp;") (sl " ") t5
    let t7 := replaceSub (sl "&lt;") (sl "<") t6
    let t8 := replaceSub (sl "&gt;") (sl ">") t7
    let t9 := replaceSub (sl "&amp;") (sl "&") t8
    let t10 := replaceSub (sl "&quot;") ['"'] t9
    let t11 := replaceSub (sl "&#39;") [Char.ofNat 39] t10
    strTrim (collapseWS t11)

/-- `isSubstantialContent` of semanticClassifier.ts. -/
def isSubstantialContent (content : Str) : Bool :=
  if content.isEmpty then false
  else !(strTrim (removeTags [] content)).isEmpty

/-! ## semanticClassifier.ts: the 9-category classifier -/

inductive SemanticCategory where
  | Heading | Paragraph | RichText | Label | Link | Button | Image | ListCat | Other
deriving DecidableEq

def isDigitC (c : Char) : Bool := '0' ≤ c && c ≤ '9'

def isH16 (c : Char) : Bool := '1' ≤ c && c ≤ '6'

def matchesAnyExact (n : Str) (ws : List Str) : Bool := ws.any fun w => n == w

/-- FIELD_PATTERNS.Heading. -/
def headingNamePat (name : Str) : Bool :=
  let n := strToLower name
  matchesAnyExact n [sl "title", sl "heading", sl "header", sl "pagetitle", sl "sectiontitle"] ||
    (match n with
     | ['h', d] => isH16 d
     | _ => false) ||
    strEndsWith n (sl "title") || strEndsWith n (sl "heading")

/-- FIELD_PATTERNS.Paragraph. -/
def paragraphNamePat (name : Str) : Bool :=
  let n := strToLower name
  matchesAnyExact n [sl "text", sl "content", sl "body", sl "description", sl "paragraph",
    sl "copy", sl "summary", sl "intro"] ||
    strEndsWith n (sl "text") || strEndsWith n (sl "description") || strEndsWith n (sl "content")

/-- FIELD_PATTERNS.RichText. -/
def richTextNamePat (name : Str) : Bool :=
  let n := strToLower name
  matchesAnyExact n [sl "richtext", sl "html", sl "markup", sl "formattedtext",
    sl "wysiwyg", sl "editor"] ||
    strEndsWith n (sl "richtext")

/-- FIELD_PATTERNS.Label. -/
def labelNamePat (name : Str) : Bool :=
  let n := strToLower name
  matchesAnyExact n [sl "label", sl "name", sl "caption", sl "tag", sl "badge",
    sl "category", sl "type"] ||
    strEndsWith n (sl "label") || strEndsWith n (sl "name")

/-- FIELD_PATTERNS.Link (including the numbered-link regex). -/
def linkNamePat (name : Str) : Bool :=
  let n := strToLower name
  matchesAnyExact n [sl "link", sl "url", sl "href", sl "cta", sl "action",
    sl "navigation", sl "anchor"] ||
    (strStartsWith n (sl "link") && (n.drop 4).all isDigitC) ||
    strEndsWith n (sl "link") || strEndsWith n (sl "url")

/-- The call-dot-star-action alternative of FIELD_PATTERNS.Button: the name
starts with call, ends with action, and the characters in between contain no
newline. -/
def callActionPat (n : Str) : Bool :=
  strStartsWith n (sl "call") && strEndsWith n (sl "action") && decide (10 ≤ n.length) &&
    ((n.drop 4).take (n.length - 10)).all fun c => !(c == '\n')

/-- FIELD_PATTERNS.Button. -/
def buttonNamePat (name : Str) : Bool :=
  let n := strToLower name
  matchesAnyExact n [sl "button", sl "cta", sl "action", sl "submit"] || callActionPat n ||
    (strStartsWith n (sl "button") && (n.drop 6).all isDigitC) ||
    strEndsWith n (sl "button") || strEndsWith n (sl "cta")

/-- FIELD_PATTERNS.Image. -/
def imageNamePat (name : Str) : Bool :=
  let n := strToLower name
  matchesAnyExact n [sl "image", sl "img", sl "picture", sl "photo", sl "thumbnail",
    sl "banner", sl "icon", sl "media"] ||
    strEndsWith n (sl "image") || strEndsWith n (sl "img")

/-- FIELD_PATTERNS.List. -/
def listNamePat (name : Str) : Bool :=
  let n := strToLower name
  matchesAnyExact n [sl "list", sl "items", sl "collection", sl "array", sl "menu",
    sl "options"] ||
    strEndsWith n (sl "list") || strEndsWith n (sl "items")

/-- `classifyFieldName`: first category (in FIELD_PATTERNS insertion order)
with a matching pattern, else Other. -/
def classifyFieldName (fieldName : Str) : SemanticCategory :=
  if headingNamePat fieldName then SemanticCategory.Heading
  else if paragraphNamePat fieldName then SemanticCategory.Paragraph
  else if richTextNamePat fieldName then SemanticCategory.RichText
  else if labelNamePat fieldName then SemanticCategory.Label
  else if linkNamePat fieldName then SemanticCategory.Link
  else if buttonNamePat fieldName then SemanticCategory.Button
  else if imageNamePat fieldName then SemanticCategory.Image
  else if listNamePat fieldName then SemanticCategory.ListCat
  else SemanticCategory.Other

/-- CONTENT_PATTERNS.RichText, first pattern: the string contains an HTML
tag: a less-than sign, one or more non-greater-than characters, then a
greater-than sign. -/
def containsHtmlTag : Str → Bool
  | [] => false
  | c :: t =>
    (c == '<' && !(t.takeWhile fun d => !(d == '>')).isEmpty &&
      !(t.dropWhile fun d => !(d == '>')).isEmpty) || containsHtmlTag t

/-- CONTENT_PATTERNS.RichText: an HTML tag or one of the four entities. -/
def richTextContentPat (s : Str) : Bool :=
  containsHtmlTag s || strContains s (sl "&nbsp;") || strContains s (sl "&lt;") ||
    strContains s (sl "&gt;") || strContains s (sl "&amp;")

/-- CONTENT_PATTERNS.Heading: the whole string is a single h1-h6 wrapper. -/
def headingContentPat (s : Str) : Bool :=
  match strToLower s with
  | '<' :: 'h' :: d :: rest =>
    isH16 d &&
      (match rest.dropWhile (fun x => !(x == '>')) with
       | _ :: body =>
         (match body.drop (body.length - 5) with
          | ['<', '/', 'h', d2, '>'] =>
            isH16 d2 && (body.take (body.length - 5)).all fun x => !(x == '\n')
          | _ => false)
       | [] => false)
  | _ => false

/-- CONTENT_PATTERNS.Link, second pattern: a relative path of letters,
digits, hyphens and slashes. -/
def relPathPat (s : Str) : Bool :=
  match strToLower s with
  | '/' :: rest =>
    !rest.isEmpty && rest.all fun c => ('a' ≤ c && c ≤ 'z') || isDigitC c || c == '-' || c == '/'
  | _ => false

/-- CONTENT_PATTERNS.Link, fourth pattern: the string contains a bracketed
token (an opening bracket, one or more non-closing-bracket characters, a
closing bracket). -/
def containsBracketToken : Str → Bool
  | [] => false
  | c :: t =>
    (c == '[' && !(t.takeWhile fun d => !(d == ']')).isEmpty &&
      !(t.dropWhile fun d => !(d == ']')).isEmpty) || containsBracketToken t

/-- CONTENT_PATTERNS.Link, third pattern: a bracketed http or https URL. -/
def bracketHttpPat : Str → Bool
  | [] => false
  | c :: t =>
    (c == '[' &&
      (let lt := strToLower t
       let n := if strStartsWith lt (sl "https://") then 8
         else if strStartsWith lt (sl "http://") then 7 else 0
       !(n == 0) &&
         (let r := t.drop n
          !(r.takeWhile fun d => !(d == ']')).isEmpty &&
            !(r.dropWhile fun d => !(d == ']')).isEmpty))) ||
      bracketHttpPat t

/-- CONTENT_PATTERNS.Link. -/
def linkContentPat (s : Str) : Bool :=
  strStartsWith (strToLower s) (sl "http://") || strStartsWith (strToLower s) (sl "https://") ||
    relPathPat s || bracketHttpPat s || containsBracketToken s

def ctaPhrases : List Str :=
  [sl "buy", sl "learn more", sl "read more", sl "get started", sl "sign up",
   sl "subscribe", sl "download", sl "shop now", sl "add to cart", sl "checkout"]

/-- CONTENT_PATTERNS.Button: a CTA phrase, optionally followed by whitespace
and a bracketed token ending the string. -/
def btnContentPat (s : Str) : Bool :=
  let l := strToLower s
  ctaPhrases.any fun p =>
    l == p ||
      (strStartsWith l p &&
        (let r := l.drop p.length
         let w := r.takeWhile jsWS
         let b := r.dropWhile jsWS
         !w.isEmpty &&
           (match b with
            | '[' :: t2 =>
              !t2.isEmpty && t2.getLast? == some ']' &&
                ((t2.take (t2.length - 1)).all fun x => !(x == '\n'))
            | _ => false)))

/-- Is there an occurrence of `pat` in the string after which every
character satisfies `p`? -/
def existsSubWithTail (pat : Str) (p : Char → Bool) : Str → Bool
  | [] => pat.isEmpty
  | c :: t =>
    (strStartsWith (c :: t) pat && ((c :: t).drop pat.length).all p) || existsSubWithTail pat p t

def imageExts : List Str := [sl "jpg", sl "jpeg", sl "png", sl "gif", sl "svg", sl "webp", sl "bmp"]

/-- CONTENT_PATTERNS.Image: a dot-extension suffix, optionally followed by a
query string. -/
def imageContentPat (s : Str) : Bool :=
  let l := strToLower s
  imageExts.any fun e =>
    strEndsWith l ('.' :: e) ||
      existsSubWithTail ('.' :: (e ++ ['?'])) (fun c => !(c == '\n')) l

/-- `classifyContent`: Button patterns first, then the remaining
CONTENT_PATTERNS entries in insertion order (Heading, RichText, Link, Image;
Paragraph, Label, List and Other are skipped or empty). -/
def classifyContent (content : Str) : Option SemanticCategory :=
  if (strTrim content).isEmpty then none
  else if btnContentPat content then some SemanticCategory.Button
  else if headingContentPat content then some SemanticCategory.Heading
  else if richTextContentPat content then some SemanticCategory.RichText
  else if linkContentPat content then some SemanticCategory.Link
  else if imageContentPat content then some SemanticCategory.Image
  else none

/-- `mapFieldTypeToCategory`. -/
def mapFieldTypeToCategory (fieldType : Str) : SemanticCategory :=
  if fieldType == sl "Single-Line Text" then SemanticCategory.Label
  else if fieldType == sl "Multi-Line Text" then SemanticCategory.Paragraph
  else if fieldType == sl "Rich Text" then SemanticCategory.RichText
  else if fieldType == sl "General Link" then SemanticCategory.Link
  else if fieldType == sl "Image" then SemanticCategory.Image
  else if fieldType == sl "Droplink" then SemanticCategory.Label
  else if fieldType == sl "Droptree" then SemanticCategory.Label
  else if fieldType == sl "Checklist" then SemanticCategory.ListCat
  else if fieldType == sl "Multilist" then SemanticCategory.ListCat
  else if fieldType == sl "Treelist" then SemanticCategory.ListCat
  else SemanticCategory.Other

/-- TEMPLATE_PATTERNS lookup. -/
def templatePattern (templateName : Str) : Option SemanticCategory :=
  if templateName == sl "Heading" then some SemanticCategory.Heading
  else if templateName == sl "Text" then some SemanticCategory.Paragraph
  else if templateName == sl "Rich Text" then some SemanticCategory.RichText
  else if templateName == sl "Link" then some SemanticCategory.Link
  else if templateName == sl "Image" then some SemanticCategory.Image
  else if templateName == sl "Button" then some SemanticCategory.Button
  else if templateName == sl "List" then some SemanticCategory.ListCat
  else none

/-- The semanticCategories membership test of `classifyField`: is the type
string literally one of the 9 category names? -/
def semCatOfStr (s : Str) : Option SemanticCategory :=
  if s == sl "Heading" then some SemanticCategory.Heading
  else if s == sl "Paragraph" then some SemanticCategory.Paragraph
  else if s == sl "RichText" then some SemanticCategory.RichText
  else if s == sl "Label" then some SemanticCategory.Label
  else if s == sl "Link" then some SemanticCategory.Link
  else if s == sl "Button" then some SemanticCategory.Button
  else if s == sl "Image" then some SemanticCategory.Image
  else if s == sl "List" then some SemanticCategory.ListCat
  else if s == sl "Other" then some SemanticCategory.Other
  else none

/-- `classifyField`: template tier, declared-type tier, field-name tier with
RichText content override, content tier, length heuristic. -/
def classifyField (fieldName fieldValue : Str) (fieldType : Option Str)
    (templateName : Option Str) : SemanticCategory :=
  let byTemplate : Option SemanticCategory :=
    match templateName with
    | some tn => if tn.isEmpty then none else templatePattern tn
    | none => none
  match byTemplate with
  | some c => c
  | none =>
    let byType : Option SemanticCategory :=
      match fieldType with
      | some ft =>
        if ft.isEmpty then none
        else
          match semCatOfStr ft with
          | some c => some c
          | none =>
            let tc := mapFieldTypeToCategory ft
            if tc = SemanticCategory.Other then none else some tc
      | none => none
    match byType with
    | some c => c
    | none =>
      let nameCategory := classifyFieldName fieldName
      let contentCategory := classifyContent fieldValue
      if nameCategory ≠ SemanticCategory.Other then
        if nameCategory = SemanticCategory.Link ∨ nameCategory = SemanticCategory.Button then
          nameCategory
        else if contentCategory = some SemanticCategory.RichText then SemanticCategory.RichText
        else nameCategory
      else
        match contentCategory with
        | some SemanticCategory.Link => SemanticCategory.Link
        | some SemanticCategory.Button => SemanticCategory.Button
        | some c => c
        | none =>
          if fieldValue.length > 200 then SemanticCategory.Paragraph
          else if fieldValue.length > 50 then SemanticCategory.Paragraph
          else SemanticCategory.Label

/-! ## Data model (types/index.ts) -/

structure ComponentMetadata where
  componentName : Str
  componentId : Str
  datasourceItemId : Option Str
  fieldName : Str
  renderingPlaceholder : Option Str
  params : Option (List (Str × Str))
deriving DecidableEq

structure FieldInfo where
  name : Str
  value : Str
  ftype : Str
  category : SemanticCategory
deriving DecidableEq

structure SemanticTextItem where
  id : Str
  text : Str
  category : SemanticCategory
  metadata : ComponentMetadata
  path : List Str
deriving DecidableEq

inductive ComponentNode where
  | mk (id name componentName ctype : Str) (datasourceId placeholder : Option Str)
      (params : Option (List (Str × Str))) (fields : List FieldInfo)
      (children : List ComponentNode) (path : List Str)

def ComponentNode.id : ComponentNode → Str
  | ComponentNode.mk i _ _ _ _ _ _ _ _ _ => i

def ComponentNode.name : ComponentNode → Str
  | ComponentNode.mk _ n _ _ _ _ _ _ _ _ => n

def ComponentNode.componentName : ComponentNode → Str
  | ComponentNode.mk _ _ cn _ _ _ _ _ _ _ => cn

def ComponentNode.datasourceId : ComponentNode → Option Str
  | ComponentNode.mk _ _ _ _ ds _ _ _ _ _ => ds

def ComponentNode.placeholder : ComponentNode → Option Str
  | ComponentNode.mk _ _ _ _ _ ph _ _ _ _ => ph

def ComponentNode.params : ComponentNode → Option (List (Str × Str))
  | ComponentNode.mk _ _ _ _ _ _ pr _ _ _ => pr

def ComponentNode.fields : ComponentNode → List FieldInfo
  | ComponentNode.mk _ _ _ _ _ _ _ fs _ _ => fs

def ComponentNode.children : ComponentNode → List ComponentNode
  | ComponentNode.mk _ _ _ _ _ _ _ _ cs _ => cs

structure RouteInfo where
  name : Str
  placeholders : List Str

structure PageContent where
  itemId : Str
  name : Str
  language : Str
  path : Str
  route : Option RouteInfo
  components : List ComponentNode

/-! ## semanticClassifier.ts: createSemanticTextItem -/

/-- `createSemanticTextItem`: id is componentId-fieldName; text is the
extracted plain text, or the raw field value when the plain text is empty
(JavaScript or-fallback). -/
def createSemanticTextItem (field : FieldInfo) (metadata : ComponentMetadata)
    (path : List Str) : SemanticTextItem :=
  let plainText := extractPlainText field.value
  { id := metadata.componentId ++ '-' :: field.name
    text := if plainText.isEmpty then field.value else plainText
    category := field.category
    metadata := metadata
    path := path }

/-! ## contentParser.ts: extractSemanticItems -/

/-- The inner `processComponent` of `extractSemanticItems`: fields of the
component first, then the children in order, with the component's name
appended to the breadcrumb path. -/
def processComponent : ComponentNode → List Str → List SemanticTextItem
  | ComponentNode.mk i n cn _ ds ph pr fs cs _, path =>
    let componentPath := path ++ [n]
    (fs.map fun f =>
      createSemanticTextItem f
        { componentName := cn, componentId := i, datasourceItemId := ds,
          fieldName := f.name, renderingPlaceholder := ph, params := pr }
        componentPath) ++
      (cs.attach.map fun x => processComponent x.1 componentPath).flatten
termination_by c _ => sizeOf c
decreasing_by
  simp_wf
  have := List.sizeOf_lt_of_mem x.2
  omega

/-- `extractSemanticItems`: process every root component with the page name
as the initial breadcrumb. -/
def extractSemanticItems (pageContent : PageContent) : List SemanticTextItem :=
  (pageContent.components.map fun c => processComponent c [pageContent.name]).flatten

/-! ## types/seo.ts -/

structure PageMetadata where
  title : Option Str := none
  description : Option Str := none
  keywords : Option (List Str) := none
  canonical : Option Str := none
  robots : Option Str := none
deriving DecidableEq

structure PageHeadings where
  h1 : Option Str := none
  h2 : Option (List Str) := none
  h3 : Option (List Str) := none
  all : List Str := []
deriving DecidableEq

structure PageImage where
  id : Str
  alt : Option Str
  src : Str
  componentId : Option Str
  componentName : Option Str
  fieldName : Option Str
  path : Option (List Str)
deriving DecidableEq

structure PageLink where
  text : Option Str
  href : Option Str
  isPlaceholder : Option Bool
  isBroken : Option Bool
  componentId : Option Str
  componentName : Option Str
  fieldName : Option Str
  path : Option (List Str)
deriving DecidableEq

structure CCParagraph where
  fieldName : Str
  text : Str
deriving DecidableEq

/-- ComponentContent, with the nested headings object inlined as h1/h2/h3
and allHeadings. -/
structure ComponentContent where
  componentId : Str
  componentName : Str
  path : List Str
  h1 : Option Str := none
  h2 : Option (List Str) := none
  h3 : Option (List Str) := none
  allHeadings : List Str := []
  paragraphs : List CCParagraph := []
  images : List PageImage := []
  links : List PageLink := []
deriving DecidableEq

structure ReadabilityMetrics where
  score : Int
  grade : Str
  sentences : Nat
  words : Nat
  syllables : Nat
  averageWordsPerSentence : Rat
  averageSyllablesPerWord : Rat
deriving DecidableEq

structure ContentMetrics where
  wordCount : Nat
  characterCount : Nat
  paragraphCount : Nat
  headingCount : Nat
  linkCount : Nat
  imageCount : Nat
  readability : Option ReadabilityMetrics
deriving DecidableEq

structure PageData where
  metadata : PageMetadata
  headings : PageHeadings
  text : Str
  images : List PageImage
  links : List PageLink
  wordCount : Option Nat
  components : Option (List ComponentContent)
  metrics : Option ContentMetrics
deriving DecidableEq

structure ScoreBreakdown where
  metadata : Int
  content : Int
  accessibility : Int
  links : Int
deriving DecidableEq

structure SEOIssues where
  missingMetaDescription : Option Bool := none
  missingH1 : Option Bool := none
  weakAltText : Option (List Str) := none
  placeholderLinks : Option (List Str) := none
  brokenLinks : Option (List Str) := none
  titleTooLong : Option Bool := none
  descriptionTooLong : Option Bool := none
  lowReadability : Option Bool := none
  shortContent : Option Bool := none
  missingImages : Option Bool := none
  tooManyLinks : Option Bool := none
  noInternalLinks : Option Bool := none
deriving DecidableEq

/-- BrokenLinkInfo; the reason is one of the string literals placeholder,
invalid-url, empty, suspected-broken. -/
structure BrokenLinkInfo where
  href : Str
  text : Option Str
  componentId : Option Str
  componentName : Option Str
  reason : Str
deriving DecidableEq

structure ScanResult where
  seoScore : Int
  breakdown : ScoreBreakdown
  issues : SEOIssues
  pageData : PageData
  brokenLinksDetails : List BrokenLinkInfo
deriving DecidableEq

/-- JavaScript truthiness of an optional string: present and non-empty. -/
def oTruthy : Option Str → Bool
  | none => false
  | some s => !s.isEmpty

/-- JavaScript truthiness of an optional boolean. -/
def oBool : Option Bool → Bool
  | none => false
  | some b => b

/-- JavaScript Math.round: round half toward positive infinity. -/
def jsRound (q : Rat) : Int := Rat.floor (q + 1 / 2)

/-! ## seoScanner.ts -/

/-- The first match of the Alt-capture regex over the compound image text:
an Alt-colon marker followed by a nonempty run of non-pipe characters.  The
callers trim the capture immediately, so returning the whole run (rather
than the run minus the whitespace absorbed by the regex) is observationally
identical. -/
def matchAlt : Str → Option Str
  | [] => none
  | c :: t =>
    if strStartsWith (c :: t) (sl "Alt:") then
      let chunk := (t.drop 3).takeWhile fun d => !(d == '|')
      if chunk.isEmpty then matchAlt t else some chunk
    else matchAlt t

/-- The first match of the Src-capture regex: a Src-colon marker followed by
whitespace and a nonempty newline-free capture reaching the end of the
string.  As with `matchAlt`, the callers trim the capture, so the
leading-whitespace handling collapses to dropping the whitespace run. -/
def matchSrc : Str → Option Str
  | [] => none
  | c :: t =>
    if strStartsWith (c :: t) (sl "Src:") then
      let rest := (t.drop 3).dropWhile jsWS
      if !rest.isEmpty && rest.all (fun d => !(d == '\n')) then some rest
      else matchSrc t
    else matchSrc t

/-- The capture of the final-bracket regex over the compound link text: the
string must end with a closing bracket, and the capture is the nonempty
closing-bracket-free run between the leftmost eligible opening bracket and
that final closing bracket. -/
def lastBracketCapture (s : Str) : Option Str :=
  match s.reverse with
  | ']' :: rt =>
    let seg := (rt.takeWhile fun d => !(d == ']')).reverse
    match seg.dropWhile fun d => !(d == '[') with
    | _ :: cap => if cap.isEmpty then none else some cap
    | [] => none
  | _ => none

/-- The capture of the leading-text regex: the nonempty prefix of characters
that are neither an opening bracket nor an opening parenthesis. -/
def leadingTextCapture (s : Str) : Option Str :=
  let t := s.takeWhile fun d => !(d == '[') && !(d == '(')
  if t.isEmpty then none else some t

/-- The title-candidate filter of `extractMetadata`. -/
def isTitleField (it : SemanticTextItem) : Bool :=
  strContains (strToLower it.metadata.fieldName) (sl "title") &&
    (it.category == SemanticCategory.Heading || it.category == SemanticCategory.Label)

/-- The description-candidate filter of `extractMetadata`. -/
def isDescriptionFieldItem (it : SemanticTextItem) : Bool :=
  (strContains (strToLower it.metadata.fieldName) (sl "description") ||
      strContains (strToLower it.metadata.fieldName) (sl "meta") ||
      strContains (strToLower it.metadata.fieldName) (sl "summary")) &&
    (it.category == SemanticCategory.Paragraph || it.category == SemanticCategory.RichText)

def hasMetaName (it : SemanticTextItem) : Bool :=
  strContains (strToLower it.metadata.fieldName) (sl "meta")

/-- `extractMetadata` of seoScanner.ts. -/
def extractMetadata (pageContent : PageContent) (semanticItems : List SemanticTextItem) :
    PageMetadata :=
  let titleFields := semanticItems.filter isTitleField
  let title : Option Str :=
    match titleFields with
    | [] => some pageContent.name
    | t0 :: _ =>
      some (strTrim (match titleFields.find? hasMetaName with
        | some m => m.text
        | none => t0.text))
  let descriptionFields := semanticItems.filter isDescriptionFieldItem
  let description : Option Str :=
    match descriptionFields with
    | [] => none
    | d0 :: _ =>
      match descriptionFields.find? hasMetaName with
      | some m => some (strTrim (extractPlainText m.text))
      | none => some ((strTrim (extractPlainText d0.text)).take 165)
  { title := title, description := description }

/-- One step of the `extractHeadings` loop over Heading-category items. -/
def extractHeadingsStep (hs : PageHeadings) (it : SemanticTextItem) : PageHeadings :=
  let text := strTrim (extractPlainText it.text)
  if text.isEmpty then hs
  else
    let fn := strToLower it.metadata.fieldName
    let hs1 :=
      if strContains fn (sl "h1") || fn == sl "title" || fn == sl "heading" ||
          (!oTruthy hs.h1 && !strContains fn (sl "h2") && !strContains fn (sl "h3")) then
        if !oTruthy hs.h1 then { hs with h1 := some text } else hs
      else if strContains fn (sl "h2") || oTruthy hs.h1 then
        { hs with h2 := some (hs.h2.getD [] ++ [text]) }
      else if strContains fn (sl "h3") then
        { hs with h3 := some (hs.h3.getD [] ++ [text]) }
      else hs
    { hs1 with all := hs1.all ++ [text] }

/-- `extractHeadings` of seoScanner.ts. -/
def extractHeadings (semanticItems : List SemanticTextItem) : PageHeadings :=
  (semanticItems.filter fun it => it.category == SemanticCategory.Heading).foldl
    extractHeadingsStep { h1 := none, h2 := some [], h3 := some [], all := [] }

/-- `extractTextContent` of seoScanner.ts. -/
def extractTextContent (semanticItems : List SemanticTextItem) : Str :=
  let textItems := semanticItems.filter fun it =>
    it.category == SemanticCategory.Paragraph || it.category == SemanticCategory.RichText ||
      (it.category == SemanticCategory.Other && decide (it.text.length > 50))
  let paragraphs := (textItems.map fun it => strTrim (extractPlainText it.text)).filter
    fun t => decide (t.length > 10)
  List.intercalate (sl " ") paragraphs

/-- The body of the `extractImages` loop for one Image item. -/
def imageOfItem (it : SemanticTextItem) : Option PageImage :=
  let alt := (matchAlt it.text).elim [] strTrim
  let src := (matchSrc it.text).elim [] strTrim
  if src.isEmpty then none
  else
    some
      { id := it.id, alt := some alt, src := src,
        componentId := some it.metadata.componentId,
        componentName := some it.metadata.componentName,
        fieldName := some it.metadata.fieldName, path := some it.path }

/-- `extractImages` of seoScanner.ts. -/
def extractImages (semanticItems : List SemanticTextItem) : List PageImage :=
  (semanticItems.filter fun it => it.category == SemanticCategory.Image).filterMap imageOfItem

/-- Model of the WHATWG URL constructor used by `detectBrokenLink`: parsing
succeeds exactly for absolute URLs, strings starting with an ASCII letter,
scheme characters, and a colon.  (The constructor is a platform builtin, not
repository code; only its success predicate is modelled, and no claim
depends on its exact boundary.) -/
def urlParseOk (s : Str) : Bool :=
  match s with
  | c :: rest =>
    ('a' ≤ lowerChar c && lowerChar c ≤ 'z') &&
      (match rest.dropWhile (fun d =>
          ('a' ≤ lowerChar d && lowerChar d ≤ 'z') || isDigitC d ||
            d == '+' || d == '-' || d == '.') with
       | ':' :: _ => true
       | _ => false)
  | [] => false

/-- `detectBrokenLink` of seoScanner.ts. -/
def detectBrokenLink (href : Str) : Bool :=
  if href.isEmpty || (strTrim href).isEmpty then true
  else if href == sl "http://#" || href == sl "#" || strStartsWith href (sl "http://#") then true
  else if strContains href (sl "javascript:void(0)") || strContains href (sl "javascript:;") then
    true
  else if strStartsWith href (sl "/") || strStartsWith href (sl "./") ||
      strStartsWith href (sl "../") then false
  else if urlParseOk href then false
  else strContains href (sl " ") || strContains href (sl "\n") || strContains href (sl "\t")

/-- The body of the `extractLinks` loop for one Link item. -/
def linkOfItem (it : SemanticTextItem) : Option PageLink :=
  let href := (lastBracketCapture it.text).elim [] strTrim
  let text := (leadingTextCapture it.text).elim [] strTrim
  if href.isEmpty then none
  else
    let isPlaceholder := href == sl "http://#" || href == sl "#" ||
      strStartsWith href (sl "http://#") || (strTrim href).isEmpty
    some
      { text := some text, href := some href, isPlaceholder := some isPlaceholder,
        isBroken := some (detectBrokenLink href),
        componentId := some it.metadata.componentId,
        componentName := some it.metadata.componentName,
        fieldName := some it.metadata.fieldName, path := some it.path }

/-- `extractLinks` of seoScanner.ts. -/
def extractLinks (semanticItems : List SemanticTextItem) : List PageLink :=
  (semanticItems.filter fun it => it.category == SemanticCategory.Link).filterMap linkOfItem

/-- `countWords` of seoScanner.ts (no tag stripping). -/
def countWordsScan (text : Str) : Nat :=
  if (strTrim text).isEmpty then 0
  else ((splitRuns jsWS (strTrim text)).filter fun w => !w.isEmpty).length

/-- A fresh per-component bucket for `extractComponentContent`. -/
def freshComponentContent (it : SemanticTextItem) : ComponentContent :=
  { componentId := it.metadata.componentId, componentName := it.metadata.componentName,
    path := it.path }

/-- The per-item mutation of a component bucket in `extractComponentContent`. -/
def updateComponentContent (comp : ComponentContent) (it : SemanticTextItem) :
    ComponentContent :=
  if it.category == SemanticCategory.Heading then
    let text := strTrim (extractPlainText it.text)
    if text.isEmpty then comp
    else
      let comp1 := { comp with allHeadings := comp.allHeadings ++ [text] }
      let fn := strToLower it.metadata.fieldName
      if strContains fn (sl "h1") || fn == sl "title" || fn == sl "heading" then
        if !oTruthy comp1.h1 then { comp1 with h1 := some text } else comp1
      else if strContains fn (sl "h2") then
        { comp1 with h2 := some (comp1.h2.getD [] ++ [text]) }
      else if strContains fn (sl "h3") then
        { comp1 with h3 := some (comp1.h3.getD [] ++ [text]) }
      else comp1
  else if it.category == SemanticCategory.Paragraph ||
      it.category == SemanticCategory.RichText then
    let text := strTrim (extractPlainText it.text)
    if decide (text.length > 10) then
      { comp with paragraphs :=
          comp.paragraphs ++ [{ fieldName := it.metadata.fieldName, text := text }] }
    else comp
  else if it.category == SemanticCategory.Image then
    let alt := (matchAlt it.text).elim [] strTrim
    let src := (matchSrc it.text).elim [] strTrim
    if src.isEmpty then comp
    else
      { comp with images := comp.images ++
          [{ id := it.id, alt := some alt, src := src,
             componentId := some it.metadata.componentId,
             componentName := some it.metadata.componentName,
             fieldName := some it.metadata.fieldName, path := some it.path }] }
  else if it.category == SemanticCategory.Link then
    let href := (lastBracketCapture it.text).elim [] strTrim
    let linkText := (leadingTextCapture it.text).elim [] strTrim
    if href.isEmpty then comp
    else
      { comp with links := comp.links ++
          [{ text := some linkText, href := some href,
             isPlaceholder := some (href == sl "http://#" || href == sl "#"), isBroken := none,
             componentId := some it.metadata.componentId,
             componentName := some it.metadata.componentName,
             fieldName := some it.metadata.fieldName, path := some it.path }] }
  else comp

/-- One step of the `extractComponentContent` loop: get-or-insert the bucket
keyed by component id (insertion-ordered, as a JavaScript Map), then update
it. -/
def extractComponentContentStep (acc : List ComponentContent) (it : SemanticTextItem) :
    List ComponentContent :=
  let cid := it.metadata.componentId
  if acc.any fun c => c.componentId == cid then
    acc.map fun c => if c.componentId == cid then updateComponentContent c it else c
  else acc ++ [updateComponentContent (freshComponentContent it) it]

/-- `extractComponentContent` of seoScanner.ts. -/
def extractComponentContent (semanticItems : List SemanticTextItem) : List ComponentContent :=
  semanticItems.foldl extractComponentContentStep []

def isVowelY (c : Char) : Bool :=
  c == 'a' || c == 'e' || c == 'i' || c == 'o' || c == 'u' || c == 'y'

/-- `countSyllables` of seoScanner.ts. -/
def countSyllables (word : Str) : Nat :=
  let lowerWord := strTrim (strToLower word)
  if lowerWord.length ≤ 3 then 1
  else
    let modified := if lowerWord.getLast? == some 'e' then lowerWord.dropLast else lowerWord
    let vowelGroups := (splitRuns (fun c => !isVowelY c) modified).filter fun w => !w.isEmpty
    if vowelGroups.isEmpty then 1
    else
      let syllables := vowelGroups.length
      let syllables := if strEndsWith lowerWord (sl "le") && decide (lowerWord.length > 2) then
        syllables + 1 else syllables
      max 1 syllables

def readabilityZero : ReadabilityMetrics :=
  { score := 0, grade := sl "N/A", sentences := 0, words := 0, syllables := 0,
    averageWordsPerSentence := 0, averageSyllablesPerWord := 0 }

/-- `getReadabilityGrade` of seoScanner.ts. -/
def getReadabilityGrade (score : Int) : Str :=
  if score ≥ 90 then sl "5th grade"
  else if score ≥ 80 then sl "6th grade"
  else if score ≥ 70 then sl "7th grade"
  else if score ≥ 60 then sl "8th-9th grade"
  else if score ≥ 50 then sl "10th-12th grade"
  else if score ≥ 30 then sl "College"
  else sl "College graduate"

/-- `calculateReadability` of seoScanner.ts (the text parameter is unused by
the source as well). -/
def calculateReadability (_text : Str) (words sentences : List Str) : ReadabilityMetrics :=
  if words.isEmpty || sentences.isEmpty then readabilityZero
  else
    let totalSyllables := (words.map countSyllables).sum
    let averageWordsPerSentence : Rat := (words.length : Rat) / (sentences.length : Rat)
    let averageSyllablesPerWord : Rat := (totalSyllables : Rat) / (words.length : Rat)
    let score := jsRound (206.835 - 1.015 * averageWordsPerSentence -
      84.6 * averageSyllablesPerWord)
    let clampedScore := max 0 (min 100 score)
    { score := clampedScore, grade := getReadabilityGrade clampedScore,
      sentences := sentences.length, words := words.length, syllables := totalSyllables,
      averageWordsPerSentence := (jsRound (averageWordsPerSentence * 10) : Rat) / 10,
      averageSyllablesPerWord := (jsRound (averageSyllablesPerWord * 100) : Rat) / 100 }

/-- The paragraph splitter of `calculateContentMetrics`: JavaScript split on
newline-whitespace-newline. -/
def splitParasF : Nat → Str → Str → List Str
  | _, cur, [] => [cur.reverse]
  | 0, cur, s => [cur.reverse ++ s]
  | fuel + 1, cur, c :: t =>
    if c == '\n' then
      let w := t.takeWhile jsWS
      if w.any fun d => d == '\n' then
        let before := (w.reverse.dropWhile fun d => !(d == '\n')).reverse
        let after := w.drop before.length ++ t.drop w.length
        cur.reverse :: splitParasF fuel [] after
      else splitParasF fuel (c :: cur) t
    else splitParasF fuel (c :: cur) t

def splitParas (s : Str) : List Str := splitParasF s.length [] s

/-- `calculateContentMetrics` of seoScanner.ts. -/
def calculateContentMetrics (text : Str) (headings : PageHeadings)
    (links : List PageLink) (images : List PageImage) : ContentMetrics :=
  let cleanText := strTrim (removeTags (sl " ") text)
  let words := (splitRuns jsWS cleanText).filter fun w => !w.isEmpty
  let sentences := (splitRuns (fun c => c == '.' || c == '!' || c == '?') cleanText).filter
    fun s => !(strTrim s).isEmpty
  let paragraphs := (splitParas cleanText).filter fun p => !(strTrim p).isEmpty
  { wordCount := words.length, characterCount := cleanText.length,
    paragraphCount := paragraphs.length, headingCount := headings.all.length,
    linkCount := links.length, imageCount := images.length,
    readability := some (calculateReadability cleanText words sentences) }

/-- `scanPageContent` of seoScanner.ts. -/
def scanPageContent (pageContent : PageContent) (semanticItems : List SemanticTextItem) :
    PageData :=
  let metadata := extractMetadata pageContent semanticItems
  let headings := extractHeadings semanticItems
  let text := extractTextContent semanticItems
  let images := extractImages semanticItems
  let links := extractLinks semanticItems
  let wordCount := countWordsScan text
  let components := extractComponentContent semanticItems
  let metrics := calculateContentMetrics text headings links images
  { metadata := metadata, headings := headings, text := text, images := images,
    links := links, wordCount := some wordCount, components := some components,
    metrics := some metrics }

/-! ## seoScorer.ts -/

/-- `countWords` of seoScorer.ts (tags stripped first). -/
def countWordsScore (text : Str) : Nat :=
  if (strTrim text).isEmpty then 0
  else
    let textOnly := removeTags (sl " ") text
    ((splitRuns jsWS (strTrim textOnly)).filter fun w => !w.isEmpty).length

/-- `scoreMetadata`: ten points each for a fitting title and description
(with a tenth-of-a-point per-character penalty when over-long, floored at
zero), five bonus points for both present, rounded and capped at 25. -/
def scoreMetadata (metadata : PageMetadata) : Int :=
  let title := (metadata.title.map strTrim).getD []
  let description := (metadata.description.map strTrim).getD []
  let titleScore : Rat :=
    if title.length > 0 then
      if title.length ≤ 60 then 10
      else max 0 (10 - ((title.length : Rat) - 60) * (1 / 10))
    else 0
  let descScore : Rat :=
    if description.length > 0 then
      if description.length ≤ 165 then 10
      else max 0 (10 - ((description.length : Rat) - 165) * (1 / 10))
    else 0
  let bonus : Rat := if title.length > 0 ∧ description.length > 0 then 5 else 0
  min 25 (jsRound (titleScore + descScore + bonus))

/-- `scoreContent`: fifteen points for a nonempty h1, ten for at least 250
words with partial credit below. -/
def scoreContent (headings : PageHeadings) (text : Str) (wordCount : Option Nat) : Int :=
  let h1Present := match headings.h1 with
    | some h => !h.isEmpty && !(strTrim h).isEmpty
    | none => false
  let h1Score : Rat := if h1Present then 15 else 0
  let words := match wordCount with
    | some w => if w == 0 then countWordsScore text else w
    | none => countWordsScore text
  let lengthScore : Rat :=
    if words ≥ 250 then 10
    else if words > 0 then (jsRound ((words : Rat) / 250 * 10) : Rat)
    else 0
  min 25 (jsRound (h1Score + lengthScore))

/-- `scoreAccessibility`: proportional to images with alt text of length at
least five. -/
def scoreAccessibility (images : List PageImage) : Int :=
  if images.length == 0 then 25
  else
    let imagesWithAlt := (images.filter fun img =>
      oTruthy img.alt && decide (5 ≤ (strTrim (img.alt.getD [])).length)).length
    jsRound ((imagesWithAlt : Rat) / (images.length : Rat) * 25)

/-- `scoreLinks`: proportional to links that are neither placeholder nor
broken nor hash-shaped. -/
def scoreLinks (links : List PageLink) : Int :=
  if links.length == 0 then 25
  else
    let validLinks := (links.filter fun l =>
      oTruthy l.href && decide (0 < (strTrim (l.href.getD [])).length) &&
        !oBool l.isPlaceholder && !oBool l.isBroken &&
        !(l.href.getD [] == sl "http://#") && !(l.href.getD [] == sl "#")).length
    jsRound ((validLinks : Rat) / (links.length : Rat) * 25)

/-- The value pushed into brokenLinks and the detail record for an
empty-href link: the href, or the literal string empty when falsy. -/
def hrefOrEmptyStr (l : PageLink) : Str :=
  if oTruthy l.href then l.href.getD [] else sl "empty"

/-- The link loop of `identifyIssues`: broken hrefs, placeholder hrefs, and
detail records, in link order. -/
def linkIssuesLoop : List PageLink → List Str × List Str × List BrokenLinkInfo
  | [] => ([], [], [])
  | l :: rest =>
    let pr := linkIssuesLoop rest
    if !oTruthy l.href || (strTrim (l.href.getD [])).isEmpty then
      (hrefOrEmptyStr l :: pr.1, pr.2.1,
        { href := hrefOrEmptyStr l, text := l.text, componentId := l.componentId,
          componentName := l.componentName, reason := sl "empty" } :: pr.2.2)
    else if oBool l.isPlaceholder || l.href.getD [] == sl "http://#" ||
        l.href.getD [] == sl "#" then
      (pr.1, l.href.getD [] :: pr.2.1,
        { href := l.href.getD [], text := l.text, componentId := l.componentId,
          componentName := l.componentName, reason := sl "placeholder" } :: pr.2.2)
    else if oBool l.isBroken then
      (l.href.getD [] :: pr.1, pr.2.1,
        { href := l.href.getD [], text := l.text, componentId := l.componentId,
          componentName := l.componentName, reason := sl "suspected-broken" } :: pr.2.2)
    else pr

/-- `identifyIssues` of seoScorer.ts. -/
def identifyIssues (pageData : PageData) : SEOIssues × List BrokenLinkInfo :=
  let missingMetaDescription := !oTruthy pageData.metadata.description ||
    (strTrim (pageData.metadata.description.getD [])).isEmpty
  let title := (pageData.metadata.title.map strTrim).getD []
  let description := (pageData.metadata.description.map strTrim).getD []
  let h1missing := !oTruthy pageData.headings.h1 ||
    (strTrim (pageData.headings.h1.getD [])).isEmpty
  let wordCount := match pageData.wordCount with
    | some w => if w == 0 then countWordsScore pageData.text else w
    | none => countWordsScore pageData.text
  let lowReadability := match pageData.metrics with
    | some m =>
      match m.readability with
      | some r => decide (r.score < 60)
      | none => false
    | none => false
  let weakAltImages := (pageData.images.filter fun img =>
    !oTruthy img.alt || decide ((strTrim (img.alt.getD [])).length < 5)).map fun img => img.id
  let lk := linkIssuesLoop pageData.links
  let hasInternalLinks := pageData.links.any fun l =>
    oTruthy l.href && !oBool l.isPlaceholder && !oBool l.isBroken &&
      (strStartsWith (l.href.getD []) (sl "/") || strStartsWith (l.href.getD []) (sl "./") ||
        strStartsWith (l.href.getD []) (sl "../"))
  ({ missingMetaDescription := if missingMetaDescription then some true else none,
     titleTooLong := if title.length > 60 then some true else none,
     descriptionTooLong := if description.length > 165 then some true else none,
     missingH1 := if h1missing then some true else none,
     shortContent := if wordCount < 250 then some true else none,
     lowReadability := if lowReadability then some true else none,
     weakAltText := if weakAltImages.length > 0 then some weakAltImages else none,
     missingImages := if pageData.images.length == 0 then some true else none,
     placeholderLinks := if lk.2.1.length > 0 then some lk.2.1 else none,
     brokenLinks := if lk.1.length > 0 then some lk.1 else none,
     tooManyLinks := if pageData.links.length > 100 then some true else none,
     noInternalLinks :=
       if pageData.links.length > 0 && !hasInternalLinks then some true else none },
   lk.2.2)

/-- `computeSEOScore` of seoScorer.ts. -/
def computeSEOScore (pageData : PageData) : ScanResult :=
  let breakdown : ScoreBreakdown :=
    { metadata := scoreMetadata pageData.metadata,
      content := scoreContent pageData.headings pageData.text pageData.wordCount,
      accessibility := scoreAccessibility pageData.images,
      links := scoreLinks pageData.links }
  let seoScore := jsRound ((breakdown.metadata : Rat) + (breakdown.content : Rat) +
    (breakdown.accessibility : Rat) + (breakdown.links : Rat))
  let pr := identifyIssues pageData
  { seoScore := seoScore, breakdown := breakdown, issues := pr.1,
    pageData := pageData, brokenLinksDetails := pr.2 }

/-! ## pagesContextParser.ts: datasource-field conversion -/

/-- The single-quote character (written numerically). -/
def sq : Char := Char.ofNat 39

def isQuote (c : Char) : Bool := c == '"' || c == sq

/-- The first match of the Link-tag regex: a less-than Link marker
(case-insensitive), mandatory whitespace, then the non-greater-than
attribute capture up to the closing greater-than sign.  When the capture
would be purely backtracked whitespace the empty string is returned (the
attribute extractors then find nothing, as in the source). -/
def findLinkTagAttrs : Str → Option Str
  | [] => none
  | c :: t =>
    if strStartsWith (strToLower (c :: t)) (sl "<link") then
      let afterName := (c :: t).drop 5
      let w := afterName.takeWhile jsWS
      let r := afterName.drop w.length
      if w.isEmpty then findLinkTagAttrs t
      else
        match r with
        | '>' :: _ => if 2 ≤ w.length then some (w.drop 1) else findLinkTagAttrs t
        | [] => findLinkTagAttrs t
        | _ =>
          let attrs := r.takeWhile fun d => !(d == '>')
          match r.dropWhile fun d => !(d == '>') with
          | _ :: _ => some attrs
          | [] => findLinkTagAttrs t
    else findLinkTagAttrs t

/-- The first match of an attribute regex (key given lower-case with the
equals sign): key, a quote, a nonempty unquoted capture, a quote. -/
def findAttr (key : Str) : Str → Option Str
  | [] => none
  | c :: t =>
    if strStartsWith (strToLower (c :: t)) key then
      match (c :: t).drop key.length with
      | q :: r =>
        if isQuote q then
          let cap := r.takeWhile fun d => !isQuote d
          if cap.isEmpty then findAttr key t
          else
            match r.dropWhile fun d => !isQuote d with
            | _ :: _ => some cap
            | [] => findAttr key t
        else findAttr key t
      | [] => findAttr key t
    else findAttr key t

structure ParsedLink where
  ltext : Str
  url : Str
  title : Option Str
deriving DecidableEq

/-- `parseSitecoreLinkXML` of pagesContextParser.ts. -/
def parseSitecoreLinkXML (xmlString : Str) : Option ParsedLink :=
  if xmlString.isEmpty then none
  else
    match findLinkTagAttrs xmlString with
    | none => none
    | some attributes =>
      let text := (findAttr (sl "text=") attributes).getD []
      let url := (findAttr (sl "url=") attributes).getD []
      let title := findAttr (sl "title=") attributes
      if text.isEmpty && url.isEmpty then none
      else some { ltext := text, url := url, title := title }

/-- The object properties read by `convertDatasourceFieldToComponentField`
from a jsonValue object. -/
structure JProps where
  href : Option Str := none
  url : Option Str := none
  src : Option Str := none
  alt : Option Str := none
  altText : Option Str := none
  text : Option Str := none
  textValue : Option Str := none
  linkText : Option Str := none
  linkUrl : Option Str := none
  title : Option Str := none
  jtype : Option Str := none
deriving DecidableEq

/-- A value reachable as actualValue: a string or an object. -/
inductive JInner where
  | istr (s : Str)
  | iobj (p : JProps)
deriving DecidableEq

/-- Model of a jsonValue: null, a string, or an object with an optional
nested value property and the read properties.  The source dereferences the
nested value exactly one level (actualValue is jsonValue.value or jsonValue
itself), so one nesting level is modelled; an absent or null nested value
both select the outer object. -/
inductive JVal where
  | jnull
  | jstr (s : Str)
  | jobj (value : Option JInner) (props : JProps)
deriving DecidableEq

structure DatasourceField where
  name : Str
  value : Option Str
  jsonValue : Option JVal
deriving DecidableEq

def jvTruthy : Option JVal → Bool
  | none => false
  | some JVal.jnull => false
  | some (JVal.jstr s) => !s.isEmpty
  | some (JVal.jobj _ _) => true

/-- JavaScript string or-chain: the first operand when truthy, else the
second. -/
def jsOrStr (a : Option Str) (b : Str) : Str :=
  match a with
  | some s => if s.isEmpty then b else s
  | none => b

/-- The isLinkFieldByName test: the numbered-link regex or a link substring
of the lower-cased name. -/
def isLinkFieldByName (name : Str) : Bool :=
  (strStartsWith (strToLower name) (sl "link") && ((strToLower name).drop 4).all isDigitC) ||
    strContains (strToLower name) (sl "link")

/-- The isDescriptionField regex: description, desc, text, content or body
as a case-insensitive substring. -/
def isDescriptionFieldName (name : Str) : Bool :=
  strContains (strToLower name) (sl "description") ||
    strContains (strToLower name) (sl "desc") ||
    strContains (strToLower name) (sl "text") ||
    strContains (strToLower name) (sl "content") ||
    strContains (strToLower name) (sl "body")

def jsonQuote (s : Str) : Str := '"' :: (s ++ ['"'])

def jsonEntry (k : String) (v : Option Str) : List Str :=
  match v with
  | some s => [jsonQuote (sl k) ++ (':' :: jsonQuote s)]
  | none => []

/-- Model of JSON.stringify on the object shapes carried by JProps: a
brace-delimited listing of the present properties.  The stringifier is a
platform builtin; only the non-emptiness of its output is observable here,
and the braces make it always nonempty. -/
def jsonStringifyProps (p : JProps) : Str :=
  Char.ofNat 123 ::
    (List.intercalate (sl ",")
      (jsonEntry "href" p.href ++ jsonEntry "url" p.url ++ jsonEntry "src" p.src ++
        jsonEntry "alt" p.alt ++ jsonEntry "altText" p.altText ++ jsonEntry "text" p.text ++
        jsonEntry "textValue" p.textValue ++ jsonEntry "linkText" p.linkText ++
        jsonEntry "linkUrl" p.linkUrl ++ jsonEntry "title" p.title ++
        jsonEntry "type" p.jtype) ++
      [Char.ofNat 125])

def mkConvertedField (name fieldValue fieldType : Str) : FieldInfo :=
  { name := name, value := fieldValue, ftype := fieldType,
    category := classifyField name fieldValue (some fieldType) none }

/-- The post-processing tail of `convertDatasourceFieldToComponentField`:
the empty-value filtering, the Empty placeholder for description fields, and
the final classification. -/
def finishConvert (name fieldValue fieldType : Str) : Option FieldInfo :=
  let isDescriptionField := isDescriptionFieldName name
  let isEmpty := fieldValue.isEmpty || (strTrim fieldValue).isEmpty
  if isEmpty && !isDescriptionField && !(fieldType == sl "Image") &&
      !(fieldType == sl "Link") then none
  else
    let fieldValue2 := if isEmpty && isDescriptionField then sl "[Empty]" else fieldValue
    if fieldType == sl "Link" && isEmpty then none
    else some (mkConvertedField name fieldValue2 fieldType)

/-- The value-string branch of `convertDatasourceFieldToComponentField`
(taken when jsonValue is not an object): link XML decoding or plain
single-line text. -/
def convertValueBranch (name : Str) (value : Option Str) : Option FieldInfo :=
  match value with
  | some v =>
    if v.isEmpty then finishConvert name [] (sl "unknown")
    else if strStartsWith (strTrim v) (sl "<Link") then
      match parseSitecoreLinkXML v with
      | some pl =>
        let parts :=
          (if !pl.ltext.isEmpty then [pl.ltext] else []) ++
            (match pl.title with
             | some tt => if tt.isEmpty then [] else [('(' :: tt) ++ [')']]
             | none => []) ++
            (if !(strTrim pl.url).isEmpty then [('[' :: pl.url) ++ [']']] else [])
        let fieldValue :=
          if !parts.isEmpty then List.intercalate (sl " ") parts
          else if !pl.ltext.isEmpty then pl.ltext else pl.url
        finishConvert name fieldValue (sl "Link")
      | none => finishConvert name v (sl "Single-Line Text")
    else finishConvert name v (sl "Single-Line Text")
  | none => finishConvert name [] (sl "unknown")

/-- `convertDatasourceFieldToComponentField` of pagesContextParser.ts. -/
def convertDatasourceFieldToComponentField (f : DatasourceField) : Option FieldInfo :=
  if strStartsWith f.name (sl "__") then none
  else if !oTruthy f.value && !jvTruthy f.jsonValue then none
  else
    let parsedLinkFromValue : Option ParsedLink :=
      match f.value with
      | some v =>
        if !v.isEmpty && strStartsWith (strTrim v) (sl "<Link") then parseSitecoreLinkXML v
        else none
      | none => none
    match f.jsonValue with
    | some (JVal.jobj value props) =>
      let actualValue : JInner :=
        match value with
        | some (JInner.istr s) => if s.isEmpty then JInner.iobj props else JInner.istr s
        | some (JInner.iobj p) => JInner.iobj p
        | none => JInner.iobj props
      let isLink := isLinkFieldByName f.name
      let hasLinkShape :=
        match actualValue with
        | JInner.iobj p => p.href.isSome || p.url.isSome
        | _ => false
      let linkText :=
        match parsedLinkFromValue with
        | some pl => pl.ltext
        | none =>
          match actualValue with
          | JInner.iobj p => jsOrStr p.text (jsOrStr p.textValue (jsOrStr p.linkText []))
          | _ => []
      let linkUrl :=
        match parsedLinkFromValue with
        | some pl => pl.url
        | none =>
          match actualValue with
          | JInner.iobj p => jsOrStr p.href (jsOrStr p.url (jsOrStr p.linkUrl []))
          | _ => []
      let linkTitle :=
        match parsedLinkFromValue with
        | some pl => pl.title.getD []
        | none =>
          match actualValue with
          | JInner.iobj p => jsOrStr p.title []
          | _ => []
      if (isLink || hasLinkShape || parsedLinkFromValue.isSome) &&
          (!linkText.isEmpty || !linkUrl.isEmpty) then
        let parts :=
          (if !linkText.isEmpty then [linkText] else []) ++
            (if !linkTitle.isEmpty then [('(' :: linkTitle) ++ [')']] else []) ++
            (if !(strTrim linkUrl).isEmpty then [('[' :: linkUrl) ++ [']']] else [])
        let fieldValue :=
          if !parts.isEmpty then List.intercalate (sl " ") parts
          else if !linkText.isEmpty then linkText else linkUrl
        some (mkConvertedField f.name fieldValue (sl "Link"))
      else
        let imageSrc : Option Str :=
          match actualValue with
          | JInner.iobj p => p.src
          | _ => none
        let imgTruthy := match imageSrc with | some s => !s.isEmpty | none => false
        let vt : Option (Str × Str) :=
          if (imgTruthy || strContains (strToLower f.name) (sl "image")) && !isLink &&
              (match actualValue with | JInner.iobj _ => true | _ => false) then
            let alt :=
              match actualValue with
              | JInner.iobj p => jsOrStr p.alt (jsOrStr p.altText [])
              | _ => []
            let src := imageSrc.getD []
            let parts := (if !alt.isEmpty then [sl "Alt: " ++ alt] else []) ++
              (if !src.isEmpty then [sl "Src: " ++ src] else [])
            if !parts.isEmpty then some (List.intercalate (sl " | ") parts, sl "Image")
            else if strContains (strToLower f.name) (sl "image") then
              some (sl "[Image field - no src]", sl "Image")
            else none
          else
            match actualValue with
            | JInner.istr s => some (s, jsOrStr props.jtype (sl "Rich Text"))
            | JInner.iobj p => some (jsonStringifyProps p, sl "JSON")
        match vt with
        | none => none
        | some pr => finishConvert f.name pr.1 pr.2
    | _ => convertValueBranch f.name f.value

/-- A descent chain in a component tree: the list starts at the given
component and each successive element is a child of the previous one. -/
inductive ChainFrom : ComponentNode → List ComponentNode → Prop where
  | single (c : ComponentNode) : ChainFrom c [c]
  | cons (c ch : ComponentNode) (cs : List ComponentNode) :
      ch ∈ c.children → ChainFrom ch cs → ChainFrom c (c :: cs)


/-! ## General lemmas -/

theorem dropWhile_dropWhile (p : Char → Bool) (l : Str) :
    (l.dropWhile p).dropWhile p = l.dropWhile p := by
  induction l with
  | nil => rfl
  | cons c t ih =>
    by_cases h : p c
    · simp [List.dropWhile, h, ih]
    · simp [List.dropWhile, h]

theorem dropWhile_head_false (p : Char → Bool) (l : Str) (c : Char) (t : Str)
    (h : l.dropWhile p = c :: t) : p c = false := by
  induction l with
  | nil => simp [List.dropWhile] at h
  | cons d r ih =>
    by_cases hd : p d
    · exact ih (by simpa [List.dropWhile, hd] using h)
    · simp only [List.dropWhile, hd] at h
      cases h
      simpa using hd

/-- `strTrim` is idempotent. -/
theorem strTrim_strTrim (s : Str) : strTrim (strTrim s) = strTrim s := by
  unfold strTrim
  set a := s.dropWhile jsWS with ha
  set b := a.reverse.dropWhile jsWS with hb
  -- step 1: b.reverse has a non-ws head (it is a nonempty prefix of a), so
  -- the outer dropWhile does nothing; step 2: b has a non-ws head, so the
  -- inner dropWhile does nothing.
  have h1 : b.reverse.dropWhile jsWS = b.reverse := by
    have hsuff : b <:+ a.reverse := by
      rw [hb]; exact List.dropWhile_suffix _
    have hpre : b.reverse <+: a := by
      have h := List.reverse_prefix.mpr hsuff
      rw [List.reverse_reverse] at h
      exact h
    cases hbr : b.reverse with
    | nil => simp
    | cons d r =>
      have hda : ∃ u, a = d :: u := by
        rcases hpre with ⟨u, hu⟩
        rw [hbr] at hu
        exact ⟨r ++ u, by simpa using hu.symm⟩
      rcases hda with ⟨u, hu⟩
      have hd : jsWS d = false := dropWhile_head_false jsWS s d u (by rw [← ha, hu])
      simp [List.dropWhile, hd]
  have h2 : b.dropWhile jsWS = b := by
    cases hbc : b with
    | nil => simp
    | cons c t =>
      have hc : jsWS c = false := dropWhile_head_false _ _ _ _ (hb ▸ hbc)
      simp [List.dropWhile, hc]
  rw [h1, List.reverse_reverse, h2]

theorem jsRound_eq_floor (q : Rat) : jsRound q = Int.floor (q + 1 / 2) :=
  (Rat.floor_def' (q + 1 / 2)).trans Rat.floor_def.symm


theorem jsRound_nonneg (q : Rat) (h : 0 ≤ q) : 0 ≤ jsRound q := by
  rw [jsRound_eq_floor]
  exact Int.le_floor.mpr (by push_cast; linarith)

theorem jsRound_le_of_le (q : Rat) (n : Int) (h : q ≤ (n : Rat)) : jsRound q ≤ n := by
  rw [jsRound_eq_floor]
  have : q + 1 / 2 < ((n : Rat) + 1) := by linarith
  have h2 := Int.floor_lt.mpr (by push_cast; linarith : q + 1 / 2 < ((n + 1 : Int) : Rat))
  omega

theorem jsRound_intCast (z : Int) : jsRound (z : Rat) = z := by
  rw [jsRound_eq_floor, Int.floor_int_add]
  norm_num

/-! ## Claim theorems -/

/-- C3 counterexample: for the field value div-open div-close the stripped
plain text is empty, and the produced item's text is the raw field value,
not the stripped text. -/
theorem createSemanticTextItem_text_counterexample :
    extractPlainText (sl "<div></div>") = [] ∧
      (createSemanticTextItem
          { name := sl "Body", value := sl "<div></div>", ftype := sl "unknown",
            category := SemanticCategory.Other }
          { componentName := sl "Hero", componentId := sl "c1", datasourceItemId := none,
            fieldName := sl "Body", renderingPlaceholder := none, params := none }
          [sl "Home", sl "Hero"]).text = sl "<div></div>" := by
  exact ⟨by decide, by decide⟩

/-- C3 (amended): the SemanticTextItem produced by createSemanticTextItem
has text equal to the HTML-stripped plain text of the field's value whenever
that stripped text is non-empty; when the stripped text is empty the raw
field value is used instead. -/
theorem createSemanticTextItem_text (field : FieldInfo) (metadata : ComponentMetadata)
    (path : List Str) :
    (createSemanticTextItem field metadata path).text =
      if (extractPlainText field.value).isEmpty then field.value
      else extractPlainText field.value := rfl

/-- C5: for every input of calculateReadability the returned score lies in
0..100, and a zero word count yields the all-zero result with grade N/A. -/
theorem calculateReadability_score_bounds (text : Str) (words sentences : List Str) :
    (0 ≤ (calculateReadability text words sentences).score ∧
        (calculateReadability text words sentences).score ≤ 100) ∧
      (words = [] →
        calculateReadability text words sentences =
          { score := 0, grade := sl "N/A", sentences := 0, words := 0, syllables := 0,
            averageWordsPerSentence := 0, averageSyllablesPerWord := 0 }) := by
  constructor
  · unfold calculateReadability
    by_cases h : words.isEmpty || sentences.isEmpty
    · simp [h, readabilityZero]
    · simp only [h, Bool.false_eq_true, if_false]
      constructor
      · exact le_max_left 0 _
      · exact max_le (by norm_num) (min_le_left 100 _)
  · intro h
    subst h
    rfl

/-- C5 witness: at the empty word list the all-zero result is produced. -/
theorem calculateReadability_score_bounds_witness :
    calculateReadability (sl "") [] [] =
      { score := 0, grade := sl "N/A", sentences := 0, words := 0, syllables := 0,
        averageWordsPerSentence := 0, averageSyllablesPerWord := 0 } :=
  (calculateReadability_score_bounds (sl "") [] []).2 rfl

/-- C8: the scan-and-score pipeline is a deterministic function of its
input: equal PageContent and item-list inputs yield equal ScanResults. -/
theorem scan_pipeline_deterministic (pc1 pc2 : PageContent)
    (items1 items2 : List SemanticTextItem) (hpc : pc1 = pc2) (hit : items1 = items2) :
    computeSEOScore (scanPageContent pc1 items1) =
      computeSEOScore (scanPageContent pc2 items2) := by
  rw [hpc, hit]

/-- C8 witness: the pipeline applied twice to one concrete input. -/
theorem scan_pipeline_deterministic_witness :
    computeSEOScore (scanPageContent
        { itemId := sl "i1", name := sl "Home", language := sl "en", path := sl "/",
          route := none, components := [] } []) =
      computeSEOScore (scanPageContent
        { itemId := sl "i1", name := sl "Home", language := sl "en", path := sl "/",
          route := none, components := [] } []) :=
  scan_pipeline_deterministic _ _ _ _ rfl rfl

/-- C6 counterexample: the field name subtitle classifies as Heading, the
declared type unknown is neither a category name nor mapped, the value is a
single h1 wrapper which matches the RichText tag marker, yet classifyField
returns Heading (classifyContent classifies the value as Heading before the
RichText pattern is consulted, so no override happens). -/
theorem classifyField_richtext_override_counterexample :
    classifyFieldName (sl "subtitle") = SemanticCategory.Heading ∧
      semCatOfStr (sl "unknown") = none ∧
      mapFieldTypeToCategory (sl "unknown") = SemanticCategory.Other ∧
      richTextContentPat (sl "<h1>x</h1>") = true ∧
      classifyField (sl "subtitle") (sl "<h1>x</h1>") (some (sl "unknown")) none =
        SemanticCategory.Heading :=
  ⟨by decide, by decide, by decide, by decide, by decide⟩

/-- C6 (amended): when no template-table entry matches, the declared type
yields nothing, classifyFieldName returns a category other than Other, Link
and Button, and classifyContent classifies the value as RichText (the value
matches a RichText marker and matches neither the CTA phrase pattern nor the
single-heading-wrapper pattern), classifyField returns RichText: the
content-tier RichText classification overrides the name-tier category. -/
theorem classifyField_richtext_override (name value : Str) (ftype tmpl : Option Str)
    (htmpl : (match tmpl with
        | some tn => if tn.isEmpty then none else templatePattern tn
        | none => none) = (none : Option SemanticCategory))
    (htype : (match ftype with
        | some ft =>
          if ft.isEmpty then none
          else
            match semCatOfStr ft with
            | some c => some c
            | none =>
              let tc := mapFieldTypeToCategory ft
              if tc = SemanticCategory.Other then none else some tc
        | none => none) = (none : Option SemanticCategory))
    (hname : classifyFieldName name ≠ SemanticCategory.Other)
    (hlink : classifyFieldName name ≠ SemanticCategory.Link)
    (hbutton : classifyFieldName name ≠ SemanticCategory.Button)
    (hcontent : classifyContent value = some SemanticCategory.RichText) :
    classifyField name value ftype tmpl = SemanticCategory.RichText := by
  unfold classifyField
  rw [htmpl, htype, hcontent]
  simp [hname, not_or.mpr ⟨hlink, hbutton⟩]

/-- C6 witness: a concrete instantiation of the amended override theorem. -/
theorem classifyField_richtext_override_witness :
    classifyField (sl "subtitle") (sl "<p>x</p>") (some (sl "unknown")) none =
      SemanticCategory.RichText :=
  classifyField_richtext_override (sl "subtitle") (sl "<p>x</p>") (some (sl "unknown")) none
    (by decide) (by decide) (by decide) (by decide) (by decide) (by decide)

theorem finishConvert_ftype (name v t : Str) (fi : FieldInfo)
    (h : finishConvert name v t = some fi) : fi.ftype = t := by
  simp only [finishConvert] at h
  split at h
  · exact absurd h (by simp)
  · split at h
    · exact absurd h (by simp)
    · cases h
      rfl

theorem convertValueBranch_ftype (name : Str) (val : Option Str) (fi : FieldInfo)
    (h : convertValueBranch name val = some fi) :
    fi.ftype = sl "unknown" ∨ fi.ftype = sl "Link" ∨ fi.ftype = sl "Single-Line Text" := by
  unfold convertValueBranch at h
  split at h
  case _ v =>
    split at h
    · exact Or.inl (finishConvert_ftype _ _ _ _ h)
    split at h
    · split at h
      · exact Or.inr (Or.inl (finishConvert_ftype _ _ _ _ h))
      · exact Or.inr (Or.inr (finishConvert_ftype _ _ _ _ h))
    · exact Or.inr (Or.inr (finishConvert_ftype _ _ _ _ h))
  case _ => exact Or.inl (finishConvert_ftype _ _ _ _ h)

/-- C7 counterexample: the field Link1 matches the link-name pattern, yet a
jsonValue carrying a plain string value with declared type Image is returned
as a FieldInfo of type Image (the declared type is copied verbatim for
string values). -/
theorem convertDatasourceField_image_type_counterexample :
    isLinkFieldByName (sl "Link1") = true ∧
      convertDatasourceFieldToComponentField
          { name := sl "Link1", value := none,
            jsonValue := some (JVal.jobj (some (JInner.istr (sl "hello")))
              { jtype := some (sl "Image") }) } =
        some { name := sl "Link1", value := sl "hello", ftype := sl "Image",
               category := SemanticCategory.Image } :=
  ⟨by decide, by decide⟩

/-- C7 (amended): for every link-named datasource field the image branch is
never taken: the conversion returns a FieldInfo of type Image only when the
upstream jsonValue is an object whose own declared type string is Image
(copied verbatim for plain string values), never from image-shape
detection. -/
theorem convertDatasourceField_link_name_no_image_branch (f : DatasourceField)
    (hname : isLinkFieldByName f.name = true) (fi : FieldInfo)
    (hconv : convertDatasourceFieldToComponentField f = some fi)
    (htype : fi.ftype = sl "Image") :
    ∃ value props, f.jsonValue = some (JVal.jobj value props) ∧
      props.jtype = some (sl "Image") := by
  obtain ⟨nm, val, jv⟩ := f
  simp only at hname ⊢
  have notImage : ∀ t : Str, t ≠ sl "Image" → fi.ftype = t → False := by
    intro t ht hft
    exact ht (hft.symm.trans htype)
  have valueBranchAbsurd : convertValueBranch nm val = some fi → False := by
    intro h
    rcases convertValueBranch_ftype _ _ _ h with hft | hft | hft
    · exact notImage _ (by decide) hft
    · exact notImage _ (by decide) hft
    · exact notImage _ (by decide) hft
  match jv with
  | some (JVal.jobj value props) =>
    refine ⟨value, props, rfl, ?_⟩
    simp only [convertDatasourceFieldToComponentField] at hconv
    split at hconv
    · exact absurd hconv (by simp)
    split at hconv
    · exact absurd hconv (by simp)
    rw [hname] at hconv
    simp only [Bool.not_true, Bool.false_and, Bool.and_false, Bool.true_or, Bool.true_and,
      Bool.false_eq_true, if_false] at hconv
    split at hconv
    · -- early link return: type Link, contradiction
      cases hconv
      simp only [mkConvertedField] at htype
      exact absurd htype (by decide)
    · -- fall-through; the image branch is disabled by the link name
      -- in every case the returned type is either the copied declared type
      -- (string actualValue) or JSON (object actualValue), never from the
      -- image branch
      split at hconv
      · exact absurd hconv (by simp)
      rename_i pr heq
      split at heq
      · -- string actualValue: the declared type is copied
        cases heq
        have hft : fi.ftype = jsOrStr props.jtype (sl "Rich Text") :=
          finishConvert_ftype _ _ _ _ hconv
        rw [htype] at hft
        unfold jsOrStr at hft
        cases hj : props.jtype with
        | none =>
          rw [hj] at hft
          exact absurd hft (by decide)
        | some t =>
          rw [hj] at hft
          dsimp only at hft
          split at hft
          · exact absurd hft (by decide)
          · rw [hft]
      · -- object actualValue: the JSON fallback
        cases heq
        have hft : fi.ftype = sl "JSON" := finishConvert_ftype _ _ _ _ hconv
        exact (notImage _ (by decide) hft).elim
  | some JVal.jnull =>
    exfalso
    simp only [convertDatasourceFieldToComponentField] at hconv
    split at hconv
    · exact absurd hconv (by simp)
    split at hconv
    · exact absurd hconv (by simp)
    exact valueBranchAbsurd hconv
  | some (JVal.jstr s) =>
    exfalso
    simp only [convertDatasourceFieldToComponentField] at hconv
    split at hconv
    · exact absurd hconv (by simp)
    split at hconv
    · exact absurd hconv (by simp)
    exact valueBranchAbsurd hconv
  | none =>
    exfalso
    simp only [convertDatasourceFieldToComponentField] at hconv
    split at hconv
    · exact absurd hconv (by simp)
    split at hconv
    · exact absurd hconv (by simp)
    exact valueBranchAbsurd hconv

/-- C7 witness: the amended theorem applied at the concrete Link1 field with
a declared Image type. -/
theorem convertDatasourceField_link_name_no_image_branch_witness :
    ∃ value props,
      ({ name := sl "Link1", value := none,
         jsonValue := some (JVal.jobj (some (JInner.istr (sl "hello")))
           { jtype := some (sl "Image") }) } : DatasourceField).jsonValue =
        some (JVal.jobj value props) ∧ props.jtype = some (sl "Image") :=
  convertDatasourceField_link_name_no_image_branch _ (by decide)
    { name := sl "Link1", value := sl "hello", ftype := sl "Image",
      category := SemanticCategory.Image } (by decide) (by decide)

theorem extractMetadata_description_eq (pc : PageContent) (items : List SemanticTextItem) :
    (extractMetadata pc items).description =
      match items.filter isDescriptionFieldItem with
      | [] => none
      | d0 :: _ =>
        match (items.filter isDescriptionFieldItem).find? hasMetaName with
        | some m => some (strTrim (extractPlainText m.text))
        | none => some ((strTrim (extractPlainText d0.text)).take 165) := rfl

/-- C4: when at least one Paragraph/RichText item has a description-, meta-
or summary-named field but no such candidate is meta-named, the extracted
description has length at most 165; when a meta-named candidate exists its
trimmed plain text is used without truncation. -/
theorem extractMetadata_description (pc : PageContent) (items : List SemanticTextItem) :
    (items.filter isDescriptionFieldItem ≠ [] →
        (∀ d ∈ items.filter isDescriptionFieldItem, hasMetaName d = false) →
        ∃ s, (extractMetadata pc items).description = some s ∧ s.length ≤ 165) ∧
      ∀ m, (items.filter isDescriptionFieldItem).find? hasMetaName = some m →
        (extractMetadata pc items).description = some (strTrim (extractPlainText m.text)) := by
  constructor
  · intro hne hall
    have hfind : (items.filter isDescriptionFieldItem).find? hasMetaName = none :=
      List.find?_eq_none.mpr fun x hx => by simp [hall x hx]
    rw [extractMetadata_description_eq]
    cases hd : items.filter isDescriptionFieldItem with
    | nil => exact absurd hd hne
    | cons d0 rest =>
      rw [hd] at hfind
      rw [hfind]
      exact ⟨_, rfl, List.length_take_le 165 _⟩
  · intro m hm
    rw [extractMetadata_description_eq]
    cases hd : items.filter isDescriptionFieldItem with
    | nil =>
      rw [hd] at hm
      simp at hm
    | cons d0 rest =>
      rw [hd] at hm
      rw [hm]

/-- C4 witness: one long un-meta-named description candidate is truncated
to at most 165 characters. -/
theorem extractMetadata_description_witness :
    ∃ s,
      (extractMetadata
          { itemId := sl "i1", name := sl "Home", language := sl "en", path := sl "/",
            route := none, components := [] }
          [{ id := sl "c1-Description", text := List.replicate 200 'a',
             category := SemanticCategory.Paragraph,
             metadata :=
               { componentName := sl "Hero", componentId := sl "c1",
                 datasourceItemId := none, fieldName := sl "Description",
                 renderingPlaceholder := none, params := none },
             path := [sl "Home", sl "Hero"] }]).description = some s ∧ s.length ≤ 165 :=
  (extractMetadata_description _ _).1 (by decide) (by decide)

theorem extractLinks_href_trimmed_nonempty (items : List SemanticTextItem) :
    ∀ l ∈ extractLinks items, ∃ s, l.href = some s ∧ s ≠ [] ∧ strTrim s = s := by
  intro l hl
  unfold extractLinks at hl
  rw [List.mem_filterMap] at hl
  obtain ⟨it, _, hit⟩ := hl
  simp only [linkOfItem] at hit
  split at hit
  · exact absurd hit (by simp)
  · rename_i hne
    cases hit
    refine ⟨_, rfl, ?_, ?_⟩
    · intro hempty
      rw [hempty] at hne
      simp at hne
    · cases hcap : lastBracketCapture it.text with
      | none => exact absurd (by rw [hcap]; rfl) hne
      | some c => exact strTrim_strTrim c

theorem linkIssuesLoop_no_empty (links : List PageLink)
    (h : ∀ l ∈ links, ∃ s, l.href = some s ∧ s ≠ [] ∧ strTrim s = s) :
    ∀ d ∈ (linkIssuesLoop links).2.2, d.reason ≠ sl "empty" := by
  induction links with
  | nil =>
    intro d hd
    simp [linkIssuesLoop] at hd
  | cons l rest ih =>
    intro d hd
    obtain ⟨s, hs, hne, htr⟩ := h l (List.mem_cons_self l rest)
    have hcond : (!oTruthy l.href || (strTrim (l.href.getD [])).isEmpty) = false := by
      rw [hs]
      simp only [oTruthy, Option.getD_some, htr]
      simp [hne]
    unfold linkIssuesLoop at hd
    rw [hcond] at hd
    simp only [Bool.false_eq_true, if_false] at hd
    have ihr := ih fun x hx => h x (List.mem_cons_of_mem l hx)
    split at hd
    · rcases List.mem_cons.mp hd with hdl | hdr
      · rw [hdl]
        show sl "placeholder" ≠ sl "empty"
        decide
      · exact ihr d hdr
    · split at hd
      · rcases List.mem_cons.mp hd with hdl | hdr
        · rw [hdl]
          show sl "suspected-broken" ≠ sl "empty"
          decide
        · exact ihr d hdr
      · exact ihr d hd

/-- C10: every link produced by extractLinks has a truthy (non-empty) href,
so for any PageData whose links come from extractLinks the empty-href branch
of identifyIssues is unreachable: no broken-link detail carries the reason
empty. -/
theorem identifyIssues_no_empty_reason (items : List SemanticTextItem) (pd : PageData)
    (hlinks : pd.links = extractLinks items) :
    (∀ l ∈ pd.links, oTruthy l.href = true) ∧
      ∀ d ∈ (computeSEOScore pd).brokenLinksDetails, d.reason ≠ sl "empty" := by
  have hprop : ∀ l ∈ pd.links, ∃ s, l.href = some s ∧ s ≠ [] ∧ strTrim s = s := by
    rw [hlinks]
    exact extractLinks_href_trimmed_nonempty items
  constructor
  · intro l hl
    obtain ⟨s, hs, hne, _⟩ := hprop l hl
    rw [hs]
    simp [oTruthy, hne]
  · have hdet : (computeSEOScore pd).brokenLinksDetails = (linkIssuesLoop pd.links).2.2 := rfl
    rw [hdet]
    exact linkIssuesLoop_no_empty pd.links hprop

/-- C10 witness: a concrete one-link page with a well-formed bracketed URL
has no empty-reason detail. -/
theorem identifyIssues_no_empty_reason_witness :
    (∀ l ∈ (extractLinks
        [{ id := sl "c1-Link", text := sl "Go [/home]", category := SemanticCategory.Link,
           metadata :=
             { componentName := sl "Hero", componentId := sl "c1",
               datasourceItemId := none, fieldName := sl "Link",
               renderingPlaceholder := none, params := none },
           path := [sl "Home", sl "Hero"] }]), oTruthy l.href = true) ∧
      ∀ d ∈ (computeSEOScore
          { metadata := {}, headings := {}, text := [], images := [],
            links := extractLinks
              [{ id := sl "c1-Link", text := sl "Go [/home]",
                 category := SemanticCategory.Link,
                 metadata :=
                   { componentName := sl "Hero", componentId := sl "c1",
                     datasourceItemId := none, fieldName := sl "Link",
                     renderingPlaceholder := none, params := none },
                 path := [sl "Home", sl "Hero"] }],
            wordCount := none, components := none,
            metrics := none }).brokenLinksDetails, d.reason ≠ sl "empty" :=
  identifyIssues_no_empty_reason
    [{ id := sl "c1-Link", text := sl "Go [/home]", category := SemanticCategory.Link,
       metadata :=
         { componentName := sl "Hero", componentId := sl "c1", datasourceItemId := none,
           fieldName := sl "Link", renderingPlaceholder := none, params := none },
       path := [sl "Home", sl "Hero"] }]
    { metadata := {}, headings := {}, text := [], images := [],
      links := extractLinks
        [{ id := sl "c1-Link", text := sl "Go [/home]", category := SemanticCategory.Link,
           metadata :=
             { componentName := sl "Hero", componentId := sl "c1", datasourceItemId := none,
               fieldName := sl "Link", renderingPlaceholder := none, params := none },
           path := [sl "Home", sl "Hero"] }],
      wordCount := none, components := none, metrics := none }
    rfl

theorem extractHeadingsStep_h2_mono (hs : PageHeadings) (it : SemanticTextItem) (x : Str)
    (hx : x ∈ hs.h2.getD []) : x ∈ (extractHeadingsStep hs it).h2.getD [] := by
  simp only [extractHeadingsStep]
  repeat' split
  all_goals first
    | exact hx
    | exact List.mem_append_left _ hx

theorem extractHeadingsStep_h3_mono (hs : PageHeadings) (it : SemanticTextItem) (x : Str)
    (hx : x ∈ hs.h3.getD []) : x ∈ (extractHeadingsStep hs it).h3.getD [] := by
  simp only [extractHeadingsStep]
  repeat' split
  all_goals first
    | exact hx
    | exact List.mem_append_left _ hx

theorem extractHeadings_foldl_h2_mono (l : List SemanticTextItem) (hs : PageHeadings) (x : Str)
    (hx : x ∈ hs.h2.getD []) : x ∈ (l.foldl extractHeadingsStep hs).h2.getD [] := by
  induction l generalizing hs with
  | nil => exact hx
  | cons a t ih => exact ih _ (extractHeadingsStep_h2_mono hs a x hx)

theorem extractHeadings_foldl_h3_mono (l : List SemanticTextItem) (hs : PageHeadings) (x : Str)
    (hx : x ∈ hs.h3.getD []) : x ∈ (l.foldl extractHeadingsStep hs).h3.getD [] := by
  induction l generalizing hs with
  | nil => exact hx
  | cons a t ih => exact ih _ (extractHeadingsStep_h3_mono hs a x hx)

theorem ne_title_of_contains_h2 (fn : Str) (h : strContains fn (sl "h2") = true) :
    (fn == sl "title") = false := by
  cases heq : fn == sl "title"
  · rfl
  · rw [eq_of_beq heq] at h
    exact absurd h (by decide)

theorem ne_heading_of_contains_h2 (fn : Str) (h : strContains fn (sl "h2") = true) :
    (fn == sl "heading") = false := by
  cases heq : fn == sl "heading"
  · rfl
  · rw [eq_of_beq heq] at h
    exact absurd h (by decide)

theorem ne_title_of_contains_h3 (fn : Str) (h : strContains fn (sl "h3") = true) :
    (fn == sl "title") = false := by
  cases heq : fn == sl "title"
  · rfl
  · rw [eq_of_beq heq] at h
    exact absurd h (by decide)

theorem ne_heading_of_contains_h3 (fn : Str) (h : strContains fn (sl "h3") = true) :
    (fn == sl "heading") = false := by
  cases heq : fn == sl "heading"
  · rfl
  · rw [eq_of_beq heq] at h
    exact absurd h (by decide)

theorem extractHeadingsStep_h2_append (hs : PageHeadings) (it : SemanticTextItem)
    (htext : (strTrim (extractPlainText it.text)).isEmpty = false)
    (h2c : strContains (strToLower it.metadata.fieldName) (sl "h2") = true)
    (h1c : strContains (strToLower it.metadata.fieldName) (sl "h1") = false) :
    (extractHeadingsStep hs it).h2 =
      some (hs.h2.getD [] ++ [strTrim (extractPlainText it.text)]) := by
  have ht1 := ne_title_of_contains_h2 _ h2c
  have ht2 := ne_heading_of_contains_h2 _ h2c
  simp only [extractHeadingsStep, htext, h2c, h1c, ht1, ht2, Bool.false_eq_true, if_false,
    Bool.or_false, Bool.false_or, Bool.not_true, Bool.and_false, Bool.false_and, Bool.true_or,
    Bool.or_true, if_true]

theorem extractHeadingsStep_h3_cases (hs : PageHeadings) (it : SemanticTextItem)
    (htext : (strTrim (extractPlainText it.text)).isEmpty = false)
    (h3c : strContains (strToLower it.metadata.fieldName) (sl "h3") = true)
    (h1c : strContains (strToLower it.metadata.fieldName) (sl "h1") = false)
    (h2c : strContains (strToLower it.metadata.fieldName) (sl "h2") = false) :
    (oTruthy hs.h1 = false →
        (extractHeadingsStep hs it).h3 =
          some (hs.h3.getD [] ++ [strTrim (extractPlainText it.text)])) ∧
      (oTruthy hs.h1 = true →
        (extractHeadingsStep hs it).h2 =
          some (hs.h2.getD [] ++ [strTrim (extractPlainText it.text)])) := by
  have ht1 := ne_title_of_contains_h3 _ h3c
  have ht2 := ne_heading_of_contains_h3 _ h3c
  constructor
  · intro hh1
    simp only [extractHeadingsStep, htext, h3c, h1c, h2c, ht1, ht2, hh1, Bool.false_eq_true,
      if_false, Bool.or_false, Bool.false_or, Bool.not_true, Bool.not_false, Bool.and_false,
      Bool.false_and, Bool.true_and, Bool.and_true, if_true]
  · intro hh1
    simp only [extractHeadingsStep, htext, h3c, h1c, h2c, ht1, ht2, hh1, Bool.false_eq_true,
      if_false, Bool.or_false, Bool.false_or, Bool.or_true, Bool.not_true, Bool.not_false,
      Bool.and_false, Bool.false_and, Bool.true_and, Bool.and_true, if_true]

/-- C2 counterexample: after a title item assigns the h1 slot, an
h3sub-named heading item is appended to the h2 list and the h3 list stays
empty, contradicting an unconditional h3 assignment. -/
theorem extractHeadings_h3_counterexample :
    (extractHeadings
        [{ id := sl "c1-Title", text := sl "A", category := SemanticCategory.Heading,
           metadata :=
             { componentName := sl "Hero", componentId := sl "c1", datasourceItemId := none,
               fieldName := sl "title", renderingPlaceholder := none, params := none },
           path := [sl "Home", sl "Hero"] },
         { id := sl "c1-h3sub", text := sl "B", category := SemanticCategory.Heading,
           metadata :=
             { componentName := sl "Hero", componentId := sl "c1", datasourceItemId := none,
               fieldName := sl "h3sub", renderingPlaceholder := none, params := none },
           path := [sl "Home", sl "Hero"] }]).h3 = some [] ∧
      (extractHeadings
        [{ id := sl "c1-Title", text := sl "A", category := SemanticCategory.Heading,
           metadata :=
             { componentName := sl "Hero", componentId := sl "c1", datasourceItemId := none,
               fieldName := sl "title", renderingPlaceholder := none, params := none },
           path := [sl "Home", sl "Hero"] },
         { id := sl "c1-h3sub", text := sl "B", category := SemanticCategory.Heading,
           metadata :=
             { componentName := sl "Hero", componentId := sl "c1", datasourceItemId := none,
               fieldName := sl "h3sub", renderingPlaceholder := none, params := none },
           path := [sl "Home", sl "Hero"] }]).h2 = some [sl "B"] :=
  ⟨by decide, by decide⟩

/-- C2 (amended): a Heading item with non-empty plain text whose lowered
field name contains h2 but not h1 is appended to the h2 level regardless of
position or prior assignments; one whose name contains h3 and carries no
h1, title, heading or h2 hint is appended to the h3 level exactly when no
h1 has been assigned from earlier items, and to the h2 level when an h1 is
already assigned. -/
theorem extractHeadings_hint_assignment (items pre post : List SemanticTextItem)
    (it : SemanticTextItem) (hsplit : items = pre ++ it :: post)
    (hcat : it.category = SemanticCategory.Heading)
    (htext : (strTrim (extractPlainText it.text)).isEmpty = false) :
    (strContains (strToLower it.metadata.fieldName) (sl "h2") = true →
        strContains (strToLower it.metadata.fieldName) (sl "h1") = false →
        strTrim (extractPlainText it.text) ∈ (extractHeadings items).h2.getD []) ∧
      (strContains (strToLower it.metadata.fieldName) (sl "h3") = true →
        strContains (strToLower it.metadata.fieldName) (sl "h1") = false →
        strContains (strToLower it.metadata.fieldName) (sl "h2") = false →
        (oTruthy ((pre.filter fun i => i.category == SemanticCategory.Heading).foldl
              extractHeadingsStep
              { h1 := none, h2 := some [], h3 := some [], all := [] }).h1 = false →
          strTrim (extractPlainText it.text) ∈ (extractHeadings items).h3.getD []) ∧
        (oTruthy ((pre.filter fun i => i.category == SemanticCategory.Heading).foldl
              extractHeadingsStep
              { h1 := none, h2 := some [], h3 := some [], all := [] }).h1 = true →
          strTrim (extractPlainText it.text) ∈ (extractHeadings items).h2.getD [])) := by
  subst hsplit
  have hfil : (pre ++ it :: post).filter (fun i => i.category == SemanticCategory.Heading) =
      pre.filter (fun i => i.category == SemanticCategory.Heading) ++
        it :: post.filter (fun i => i.category == SemanticCategory.Heading) := by
    rw [List.filter_append, List.filter_cons]
    simp [hcat]
  unfold extractHeadings
  rw [hfil, List.foldl_append, List.foldl_cons]
  refine ⟨?_, fun h3c h1c h2c => ⟨?_, ?_⟩⟩
  · intro h2c h1c
    apply extractHeadings_foldl_h2_mono
    rw [extractHeadingsStep_h2_append _ it htext h2c h1c]
    simp
  · intro hh1
    apply extractHeadings_foldl_h3_mono
    rw [(extractHeadingsStep_h3_cases _ it htext h3c h1c h2c).1 hh1]
    simp
  · intro hh1
    apply extractHeadings_foldl_h2_mono
    rw [(extractHeadingsStep_h3_cases _ it htext h3c h1c h2c).2 hh1]
    simp

/-- C2 witness: the amended theorem at a concrete two-item sequence where an
h1 exists before the h3-hinted item. -/
theorem extractHeadings_hint_assignment_witness :
    strTrim (extractPlainText (sl "B")) ∈
      (extractHeadings
        [{ id := sl "c1-Title", text := sl "A", category := SemanticCategory.Heading,
           metadata :=
             { componentName := sl "Hero", componentId := sl "c1", datasourceItemId := none,
               fieldName := sl "title", renderingPlaceholder := none, params := none },
           path := [sl "Home", sl "Hero"] },
         { id := sl "c1-h3sub", text := sl "B", category := SemanticCategory.Heading,
           metadata :=
             { componentName := sl "Hero", componentId := sl "c1", datasourceItemId := none,
               fieldName := sl "h3sub", renderingPlaceholder := none, params := none },
           path := [sl "Home", sl "Hero"] }]).h2.getD [] :=
  (((extractHeadings_hint_assignment _
      [{ id := sl "c1-Title", text := sl "A", category := SemanticCategory.Heading,
         metadata :=
           { componentName := sl "Hero", componentId := sl "c1", datasourceItemId := none,
             fieldName := sl "title", renderingPlaceholder := none, params := none },
         path := [sl "Home", sl "Hero"] }] []
      { id := sl "c1-h3sub", text := sl "B", category := SemanticCategory.Heading,
        metadata :=
          { componentName := sl "Hero", componentId := sl "c1", datasourceItemId := none,
            fieldName := sl "h3sub", renderingPlaceholder := none, params := none },
        path := [sl "Home", sl "Hero"] }
      rfl rfl (by decide)).2 (by decide) (by decide) (by decide)).2) (by decide)

theorem ChainFrom.ne_nil {c : ComponentNode} {cs : List ComponentNode}
    (h : ChainFrom c cs) : cs ≠ [] := by
  cases h <;> simp

theorem processComponent_path_aux (n : Nat) : ∀ (c : ComponentNode), sizeOf c ≤ n →
    ∀ (path : List Str) (it : SemanticTextItem), it ∈ processComponent c path →
    ∃ cs owner, ChainFrom c cs ∧ cs.getLast? = some owner ∧
      it.path = path ++ cs.map ComponentNode.name ∧
      it.metadata.componentId = owner.id ∧
      it.metadata.componentName = owner.componentName := by
  induction n with
  | zero =>
    intro c hc
    exfalso
    cases c with
    | mk i nm cn ty ds ph pr fs cs pa => simp at hc
  | succ n ih =>
    intro c hc path it hit
    cases c with
    | mk i nm cn ty ds ph pr fs cs pa =>
      simp only [processComponent] at hit
      rw [List.mem_append] at hit
      cases hit with
      | inl hf =>
        rw [List.mem_map] at hf
        obtain ⟨f, _, hf⟩ := hf
        subst hf
        exact ⟨[ComponentNode.mk i nm cn ty ds ph pr fs cs pa], _,
          ChainFrom.single _, rfl, rfl, rfl, rfl⟩
      | inr hch =>
        rw [List.mem_flatten] at hch
        obtain ⟨l, hl, hitl⟩ := hch
        rw [List.mem_map] at hl
        obtain ⟨x, hx, hxl⟩ := hl
        subst hxl
        have hxmem : x.1 ∈ cs := x.2
        have hsz : sizeOf x.1 ≤ n := by
          have h1 := List.sizeOf_lt_of_mem hxmem
          have h2 : sizeOf (ComponentNode.mk i nm cn ty ds ph pr fs cs pa) ≤ n + 1 := hc
          simp only [ComponentNode.mk.sizeOf_spec] at h2
          omega
        obtain ⟨cs', owner, hchain, hlast, hpath, hid, hcn⟩ :=
          ih x.1 hsz (path ++ [nm]) it hitl
        refine ⟨ComponentNode.mk i nm cn ty ds ph pr fs cs pa :: cs', owner,
          ChainFrom.cons _ _ _ hxmem hchain, ?_, ?_, hid, hcn⟩
        · obtain ⟨b, t, hbt⟩ : ∃ b t, cs' = b :: t := by
            cases hcs' : cs' with
            | nil => exact absurd hcs' hchain.ne_nil
            | cons b t => exact ⟨b, t, rfl⟩
          rw [hbt] at hlast ⊢
          rw [List.getLast?_cons_cons]
          exact hlast
        · rw [hpath]
          simp [List.map_cons, ComponentNode.name]

/-- C9: every semantic item produced by extractSemanticItems has a
breadcrumb path equal to the page name followed by the names of a
root-to-owner chain of components, ending with the owning component's own
name. -/
theorem extractSemanticItems_path (pc : PageContent) (it : SemanticTextItem)
    (hit : it ∈ extractSemanticItems pc) :
    ∃ c₀ cs owner, c₀ ∈ pc.components ∧ ChainFrom c₀ cs ∧ cs.getLast? = some owner ∧
      it.path = pc.name :: cs.map ComponentNode.name ∧
      it.metadata.componentId = owner.id ∧
      it.metadata.componentName = owner.componentName := by
  unfold extractSemanticItems at hit
  rw [List.mem_flatten] at hit
  obtain ⟨l, hl, hitl⟩ := hit
  rw [List.mem_map] at hl
  obtain ⟨c, hc, hcl⟩ := hl
  subst hcl
  obtain ⟨cs, owner, hchain, hlast, hpath, hid, hcn⟩ :=
    processComponent_path_aux (sizeOf c) c le_rfl [pc.name] it hitl
  exact ⟨c, cs, owner, hc, hchain, hlast, by simpa using hpath, hid, hcn⟩

/-- C9 witness: the path of the item of a single-component page. -/
theorem extractSemanticItems_path_witness :
    ∃ c₀ cs owner,
      c₀ ∈ ({ itemId := sl "i1", name := sl "Home", language := sl "en", path := sl "/",
              route := none,
              components := [ComponentNode.mk (sl "c1") (sl "Hero") (sl "Hero")
                (sl "Component") none none none
                [{ name := sl "Title", value := sl "Hello", ftype := sl "unknown",
                   category := SemanticCategory.Heading }] [] [sl "Home", sl "Hero"]] } :
        PageContent).components ∧
      ChainFrom c₀ cs ∧ cs.getLast? = some owner ∧
      (createSemanticTextItem
          { name := sl "Title", value := sl "Hello", ftype := sl "unknown",
            category := SemanticCategory.Heading }
          { componentName := sl "Hero", componentId := sl "c1", datasourceItemId := none,
            fieldName := sl "Title", renderingPlaceholder := none, params := none }
          [sl "Home", sl "Hero"]).path =
        (sl "Home") :: cs.map ComponentNode.name ∧
      (createSemanticTextItem
          { name := sl "Title", value := sl "Hello", ftype := sl "unknown",
            category := SemanticCategory.Heading }
          { componentName := sl "Hero", componentId := sl "c1", datasourceItemId := none,
            fieldName := sl "Title", renderingPlaceholder := none, params := none }
          [sl "Home", sl "Hero"]).metadata.componentId = owner.id ∧
      (createSemanticTextItem
          { name := sl "Title", value := sl "Hello", ftype := sl "unknown",
            category := SemanticCategory.Heading }
          { componentName := sl "Hero", componentId := sl "c1", datasourceItemId := none,
            fieldName := sl "Title", renderingPlaceholder := none, params := none }
          [sl "Home", sl "Hero"]).metadata.componentName = owner.componentName :=
  extractSemanticItems_path _ _ (by
    simp only [extractSemanticItems]
    unfold processComponent
    simp)

theorem scoreMetadata_bounds (md : PageMetadata) :
    0 ≤ scoreMetadata md ∧ scoreMetadata md ≤ 25 := by
  simp only [scoreMetadata]
  refine ⟨le_min (by norm_num) (jsRound_nonneg _ ?_), min_le_left _ _⟩
  refine add_nonneg (add_nonneg ?_ ?_) ?_ <;> (repeat' split)
  all_goals norm_num

theorem scoreContent_bounds (h : PageHeadings) (t : Str) (w : Option Nat) :
    0 ≤ scoreContent h t w ∧ scoreContent h t w ≤ 25 := by
  simp only [scoreContent]
  refine ⟨le_min (by norm_num) (jsRound_nonneg _ ?_), min_le_left _ _⟩
  refine add_nonneg ?_ ?_
  · split <;> norm_num
  · repeat' split
    all_goals first
      | exact jsRound_nonneg _ (by positivity)
      | exact Int.cast_nonneg.mpr (jsRound_nonneg _ (by positivity))
      | norm_num

theorem ratio_score_bounds (k n : Nat) (hkn : k ≤ n) (hn : 0 < n) :
    0 ≤ jsRound ((k : Rat) / (n : Rat) * 25) ∧ jsRound ((k : Rat) / (n : Rat) * 25) ≤ 25 := by
  have hr : (k : Rat) / (n : Rat) ≤ 1 := by
    rw [div_le_one (by exact_mod_cast hn)]
    exact_mod_cast hkn
  constructor
  · exact jsRound_nonneg _ (by positivity)
  · apply jsRound_le_of_le
    push_cast
    linarith [hr]

theorem scoreAccessibility_bounds (images : List PageImage) :
    0 ≤ scoreAccessibility images ∧ scoreAccessibility images ≤ 25 := by
  simp only [scoreAccessibility]
  split
  · norm_num
  · rename_i h
    have hn : 0 < images.length := by
      rcases Nat.eq_zero_or_pos images.length with h0 | h0
      · exact absurd (by simpa using h0) (by simpa using h)
      · exact h0
    exact ratio_score_bounds _ _ (List.length_filter_le _ _) hn

theorem scoreLinks_bounds (links : List PageLink) :
    0 ≤ scoreLinks links ∧ scoreLinks links ≤ 25 := by
  simp only [scoreLinks]
  split
  · norm_num
  · rename_i h
    have hn : 0 < links.length := by
      rcases Nat.eq_zero_or_pos links.length with h0 | h0
      · exact absurd (by simpa using h0) (by simpa using h)
      · exact h0
    exact ratio_score_bounds _ _ (List.length_filter_le _ _) hn

/-- C1: every sub-score is an integer in 0..25, and the total equals the
rounded sum of the four sub-scores and lies in 0..100. -/
theorem computeSEOScore_bounds (pd : PageData) :
    (0 ≤ (computeSEOScore pd).breakdown.metadata ∧
        (computeSEOScore pd).breakdown.metadata ≤ 25) ∧
      (0 ≤ (computeSEOScore pd).breakdown.content ∧
        (computeSEOScore pd).breakdown.content ≤ 25) ∧
      (0 ≤ (computeSEOScore pd).breakdown.accessibility ∧
        (computeSEOScore pd).breakdown.accessibility ≤ 25) ∧
      (0 ≤ (computeSEOScore pd).breakdown.links ∧
        (computeSEOScore pd).breakdown.links ≤ 25) ∧
      (computeSEOScore pd).seoScore =
        jsRound (((computeSEOScore pd).breakdown.metadata : Rat) +
          ((computeSEOScore pd).breakdown.content : Rat) +
          ((computeSEOScore pd).breakdown.accessibility : Rat) +
          ((computeSEOScore pd).breakdown.links : Rat)) ∧
      0 ≤ (computeSEOScore pd).seoScore ∧ (computeSEOScore pd).seoScore ≤ 100 := by
  obtain ⟨hm0, hm1⟩ := scoreMetadata_bounds pd.metadata
  obtain ⟨hc0, hc1⟩ := scoreContent_bounds pd.headings pd.text pd.wordCount
  obtain ⟨ha0, ha1⟩ := scoreAccessibility_bounds pd.images
  obtain ⟨hl0, hl1⟩ := scoreLinks_bounds pd.links
  have hsum : (computeSEOScore pd).seoScore =
      scoreMetadata pd.metadata + scoreContent pd.headings pd.text pd.wordCount +
        scoreAccessibility pd.images + scoreLinks pd.links := by
    show jsRound _ = _
    rw [show ((scoreMetadata pd.metadata : Rat) +
        (scoreContent pd.headings pd.text pd.wordCount : Rat) +
        (scoreAccessibility pd.images : Rat) + (scoreLinks pd.links : Rat)) =
        ((scoreMetadata pd.metadata + scoreContent pd.headings pd.text pd.wordCount +
          scoreAccessibility pd.images + scoreLinks pd.links : Int) : Rat) by push_cast; ring]
    exact jsRound_intCast _
  exact ⟨⟨hm0, hm1⟩, ⟨hc0, hc1⟩, ⟨ha0, ha1⟩, ⟨hl0, hl1⟩, rfl,
    by rw [hsum]; omega, by rw [hsum]; omega⟩

end Optima
